import Mathlib

/-!
Shallow embedding of the `cyb3rdog/blockly` extensions: the analog time
picker `Blockly.TimePicker` / `Blockly.FieldTime` (src/core/field_time.js)
and the advanced-mode mutator `Blockly.Cyb3rBlocks.AdvancedMutator`
(src/unnamed/part_000).  JavaScript numbers are modelled by `ℚ` (clock-hand
degrees) and `ℤ` (the integer time fields); the JS truncation `~~`,
`Math.floor` and the JS `%` remainder are modelled explicitly.
-/

namespace Cyb3rBlockly

/-- JS `~~x` (and `parseInt` on a number): truncation toward zero. -/
def jsTrunc (q : ℚ) : ℤ := if 0 ≤ q then ⌊q⌋ else -⌊-q⌋

/-- JS `%` on numbers: remainder carrying the sign of the dividend. -/
def jsRem (a b : ℚ) : ℚ := a - b * jsTrunc (a / b)

/-- JS `%` on integer-valued numbers (remainder with the dividend's sign). -/
def jsIntRem (a b : ℤ) : ℤ := if 0 ≤ a then a % b else -((-a) % b)

/-- `Blockly.TimePicker.sign` (field_time.js lines 878-883); the NaN case
cannot arise for rational inputs. -/
def jsSign (n : ℚ) : ℚ := if n = 0 then 0 else if n < 0 then -1 else 1

/-- JS `s.slice(-2)`: the last two characters of `s`. -/
def jsSlice2 (s : String) : String := String.mk (s.data.reverse.take 2).reverse

/-- JS `('0' + n).slice(-2)`, the zero padding used by `getTimeString`. -/
def jsPad2 (n : ℤ) : String := jsSlice2 ("0" ++ toString n)

/-- The mutable state of a `Blockly.TimePicker` instance: configuration
flags, the integer time fields, the AM/PM flag, the drag-gesture flag set by
`onPtrStart`, and the three hand angles (field_time.js lines 318-366 and the
prototype defaults at lines 370-373). -/
structure ClockState where
  isClock : Bool
  is24H : Bool
  showSecods : Bool
  hour : ℤ
  minute : ℤ
  second : ℤ
  isPM : Bool
  isReverseRotate : Bool
  lastHourDeg : ℚ
  lastMinuteDeg : ℚ
  lastSecondDeg : ℚ
deriving DecidableEq, Repr

/-- `Blockly.TimePicker.prototype.updateClock` (lines 646-653): re-derives
the three hand angles from the integer time fields. -/
def updateClock (st : ClockState) : ClockState :=
  { st with
    lastSecondDeg := (st.second : ℚ) * 6,
    lastMinuteDeg := ((st.minute : ℚ) + (st.second : ℚ) * 6 / 360) * 6,
    lastHourDeg := ((jsIntRem st.hour 12 : ℚ) +
      ((st.minute : ℚ) + (st.second : ℚ) * 6 / 360) * 6 / 360) * 30 }

/-- The `Blockly.TimePicker` constructor (lines 318-366) with explicit
`hour`/`minute`/`second` arguments, followed by the `updateClock` call made
from `createDOM` (line 410).  Note that line 345 computes `isPM` from the
raw `hour` parameter. -/
def mkTimePicker (isClock is24H showSecods : Bool) (hour minute second : ℤ) :
    ClockState :=
  updateClock
    { isClock := isClock, is24H := is24H, showSecods := showSecods,
      hour := jsIntRem hour 24,
      minute := jsIntRem minute 60,
      second := if !isClock && !showSecods then 0 else jsIntRem second 60,
      isPM := decide (12 ≤ hour),
      isReverseRotate := false,
      lastHourDeg := 0, lastMinuteDeg := 0, lastSecondDeg := 0 }

/-- Lines 618-624 of `onPtrMove`: the degree-to-time derivation.  The source
reuses `this.second` and `this.minute` as temporaries; the net assignments
are: `second` from the minute hand's angle, `minute` and `hour` from the
hour hand's angle, plus 12 hours when `isPM`. -/
def deriveTime (st : ClockState) : ClockState :=
  { st with
    second := ⌊(6 * st.lastMinuteDeg / 36 - (jsTrunc (6 * st.lastMinuteDeg / 36) : ℚ)) * 60⌋,
    minute := ⌊(6 * st.lastHourDeg / 180 - (jsTrunc (6 * st.lastHourDeg / 180) : ℚ)) * 60⌋,
    hour := (if st.isPM then jsTrunc (6 * st.lastHourDeg / 180) + 12
             else jsTrunc (6 * st.lastHourDeg / 180)) }

/-- Lines 577-584 of `onPtrMove`: dragging the hour hand.  The AM/PM toggle
is decided against the previous `lastHourDeg`; the minute hand snaps to
`deg % 30 * 12`. -/
def hourDragUpdate (st : ClockState) (deg : ℚ) : ClockState :=
  { st with
    isPM := if (0 ≤ deg ∧ deg < 90 ∧ 270 < st.lastHourDeg ∧ st.lastHourDeg < 360) ∨
               (0 ≤ st.lastHourDeg ∧ st.lastHourDeg < 90 ∧ 270 < deg ∧ deg < 360)
            then !st.isPM else st.isPM,
    lastHourDeg := deg,
    lastMinuteDeg := jsRem deg 30 * 12 }

/-- The wraparound test of lines 587-588 (and, with `lastSecondDeg`,
lines 601-602): the old and the new angle sit on opposite sides of the
0°/360° seam. -/
def seamWrap (old deg : ℚ) : Prop :=
  (270 < old ∧ old < 360 ∧ 0 ≤ deg ∧ deg < 90) ∨
  (270 < deg ∧ deg < 360 ∧ 0 ≤ old ∧ old < 90)

instance (old deg : ℚ) : Decidable (seamWrap old deg) := by
  unfold seamWrap; infer_instance

/-- The value assigned to `lastHourDeg` by lines 589-594 of the minute-hand
branch, before the normalization of lines 595-596. -/
def minuteHourRaw (st : ClockState) (deg : ℚ) : ℚ :=
  if seamWrap st.lastMinuteDeg deg then
    st.lastHourDeg + (deg - st.lastMinuteDeg -
      jsSign (deg - st.lastMinuteDeg) * 360) / 12
  else
    st.lastHourDeg + (deg - st.lastMinuteDeg) / 12

/-- Lines 595-596 (and 612-615): `if (x < 0) x += 360; x %= 360;`. -/
def norm360 (x : ℚ) : ℚ := jsRem (if x < 0 then x + 360 else x) 360

/-- Lines 586-597 of `onPtrMove`: dragging the minute hand.  The hour hand
moves by the (seam-adjusted) delta over 12; the AM/PM toggle of line 591
tests the raw, un-normalized hour angle and only fires in the wrap branch. -/
def minuteDragUpdate (st : ClockState) (deg : ℚ) : ClockState :=
  { st with
    isPM := if seamWrap st.lastMinuteDeg deg ∧
               (345 < minuteHourRaw st deg ∨ minuteHourRaw st deg < 15)
            then !st.isPM else st.isPM,
    lastHourDeg := norm360 (minuteHourRaw st deg),
    lastMinuteDeg := deg }

/-- The value assigned to `lastHourDeg` by lines 603-609 of the second-hand
branch, before normalization. -/
def secondHourRaw (st : ClockState) (deg : ℚ) : ℚ :=
  if seamWrap st.lastSecondDeg deg then
    st.lastHourDeg + (deg - st.lastSecondDeg -
      jsSign (deg - st.lastSecondDeg) * 360) / (12 * 60)
  else
    st.lastHourDeg + (deg - st.lastSecondDeg) / (12 * 60)

/-- The value assigned to `lastMinuteDeg` by lines 605-610 of the
second-hand branch, before normalization. -/
def secondMinuteRaw (st : ClockState) (deg : ℚ) : ℚ :=
  if seamWrap st.lastSecondDeg deg then
    st.lastMinuteDeg + (deg - st.lastSecondDeg -
      jsSign (deg - st.lastSecondDeg) * 360) / 60
  else
    st.lastMinuteDeg + (deg - st.lastSecondDeg) / 60

/-- Lines 600-616 of `onPtrMove`: dragging the second hand. -/
def secondDragUpdate (st : ClockState) (deg : ℚ) : ClockState :=
  { st with
    isPM := if seamWrap st.lastSecondDeg deg ∧
               (360 < secondHourRaw st deg ∨ secondHourRaw st deg < 0)
            then !st.isPM else st.isPM,
    lastHourDeg := norm360 (secondHourRaw st deg),
    lastMinuteDeg := norm360 (secondMinuteRaw st deg),
    lastSecondDeg := deg }

/-- Which clock hand a drag targets (`this.dragTarget`). -/
inductive Hand
  | hourH | minuteH | secondH
deriving DecidableEq, Repr

/-- The targeted hand's branch of lines 576-617. -/
def dragBranch (st : ClockState) (target : Hand) (deg : ℚ) : ClockState :=
  match target with
  | .hourH => hourDragUpdate st deg
  | .minuteH => minuteDragUpdate st deg
  | .secondH => secondDragUpdate st deg

/-- `Blockly.TimePicker.prototype.onPtrMove` (lines 571-627) on an active
drag, abstracted over the pointer geometry: `deg0` is the atan2 bearing of
line 573 (a value in [-180, 180)); line 574 subtracts 180° for a
reverse-rotation gesture and line 575 normalizes into [0, 360).  The
targeted hand's branch runs, then the time fields are re-derived
(lines 618-624) and `updateClock` (line 625) re-quantizes the angles. -/
def onPtrMoveDeg (st : ClockState) (target : Hand) (deg0 : ℚ) : ClockState :=
  updateClock (deriveTime (dragBranch st target
    (if (if st.isReverseRotate then deg0 - 180 else deg0) < 0
     then (if st.isReverseRotate then deg0 - 180 else deg0) + 360
     else (if st.isReverseRotate then deg0 - 180 else deg0))))

/-- `Blockly.TimePicker.prototype.setHours` (lines 792-798) for a numeric
argument (so `isNaN(h)` is false). -/
def setHours (st : ClockState) (h : ℤ) : ClockState :=
  if st.isClock then st
  else updateClock
    { st with hour := jsIntRem h 24,
              second := if st.showSecods then st.second else 0 }

/-- `Blockly.TimePicker.prototype.setMinutes` (lines 805-811). -/
def setMinutes (st : ClockState) (m : ℤ) : ClockState :=
  if st.isClock then st
  else updateClock
    { st with minute := jsIntRem m 60,
              second := if st.showSecods then st.second else 0 }

/-- `Blockly.TimePicker.prototype.setSeconds` (lines 812-821). -/
def setSeconds (st : ClockState) (s : ℤ) : ClockState :=
  if st.isClock then st
  else updateClock
    { st with second := if st.showSecods then jsIntRem s 60 else 0 }

/-- `Blockly.TimePicker.prototype.setAM` (lines 765-768). -/
def setAM (st : ClockState) : ClockState := updateClock { st with isPM := false }

/-- `Blockly.TimePicker.prototype.setPM` (lines 769-772). -/
def setPM (st : ClockState) : ClockState := updateClock { st with isPM := true }

/-- `Blockly.TimePicker.prototype.getTimeString` (lines 733-740). -/
def getTimeString (st : ClockState) : String :=
  let displayHour : ℤ :=
    if st.is24H then st.hour
    else if jsIntRem st.hour 12 = 0 then 12 else jsIntRem st.hour 12
  let r1 : String := jsPad2 displayHour ++ ":" ++ jsPad2 st.minute
  let r2 : String := if st.showSecods then r1 ++ ":" ++ jsPad2 st.second else r1
  if !st.is24H then r2 ++ " " ++ (if st.isPM then "PM" else "AM") else r2

/-- `Blockly.FieldTime.prototype.doClassValidation_` (lines 123-129):
`if (!opt_newValue) { return null; } return opt_newValue;` — an absent value
or the empty string (the only falsy string) yields `null`; everything else
is returned unchanged. -/
def doClassValidation (v : Option String) : Option String :=
  match v with
  | none => none
  | some s => if s = "" then none else some s

/-! ### The advanced-mode mutator (src/unnamed/part_000) -/

/-- A block input as the mutator sees it: its `advanced_mode` flag and its
visibility (`input.setVisible`). -/
structure BInput where
  advanced_mode : Bool
  visible : Bool
deriving DecidableEq, Repr

/-- A block as the mutator sees it: collapsed state, its `advanced_mode`
attribute and its `inputList`. -/
structure Block where
  collapsed : Bool
  advanced_mode : Bool
  inputs : List BInput
deriving DecidableEq, Repr

/-- `Blockly.Cyb3rBlocks.AdvancedMutator.prototype.setAdvancedMode`
(src/unnamed/part_000 lines 145-162): the `advanced_mode` attribute is set
first; switching to advanced returns early on a collapsed block and
otherwise shows every input; switching to simple hides exactly the inputs
flagged `advanced_mode`. -/
def setAdvancedMode (b : Block) (advanced : Bool) : Block :=
  let b1 : Block := { b with advanced_mode := advanced }
  if advanced then
    if b1.collapsed then b1
    else { b1 with inputs := b1.inputs.map (fun i => { i with visible := true }) }
  else
    { b1 with inputs := b1.inputs.map (fun i => if i.advanced_mode then { i with visible := false } else i) }

/-! ### DOM event bindings and `destroy` (field_time.js lines 668-720, 835-848) -/

/-- The six handler methods bound by `bindClockEvents`. -/
inductive HandlerName
  | onMouseDown | onMouseMove | onMouseUp | onTouchStart | onTouchMove | onTouchEnd
deriving DecidableEq, Repr

/-- A JS function object as used by add/removeEventListener: either a
prototype method itself, or a fresh `callback.bind(instance)` wrapper — a
distinct object that is never `===` the original method. -/
inductive FnRef
  | orig (f : HandlerName)
  | bound (f : HandlerName)
deriving DecidableEq, Repr

/-- The DOM nodes listeners are attached to. -/
inductive DomElem
  | hourHand | minuteHand | secondHand | doc
deriving DecidableEq, Repr

/-- One active event-listener registration. -/
structure Listener where
  elem : DomElem
  event : String
  fn : FnRef
deriving DecidableEq, Repr

/-- `Blockly.TimePicker.addEvent` (lines 835-841): it registers
`callback.bind(instance)` — a fresh bound wrapper. -/
def addEvent (regs : List Listener) (e : DomElem) (ev : String)
    (cb : HandlerName) : List Listener :=
  regs ++ [⟨e, ev, FnRef.bound cb⟩]

/-- `Blockly.TimePicker.removeEvent` (lines 842-848):
`el.removeEventListener(ev, cb)` detaches exactly the registrations whose
function object is `cb`.  `unbindClockEvents` passes the prototype methods
(e.g. `this.onMouseDown`), i.e. `FnRef.orig` values. -/
def removeEvent (regs : List Listener) (e : DomElem) (ev : String)
    (cb : HandlerName) : List Listener :=
  regs.filter (fun l => !(decide (l.elem = e ∧ l.event = ev ∧ l.fn = FnRef.orig cb)))

/-- `Blockly.TimePicker.prototype.bindClockEvents` (lines 668-688); `touch`
models the `'touchstart' in window || …` capability test. -/
def bindClockEvents (touch : Bool) (regs : List Listener) : List Listener :=
  let r := addEvent regs .hourHand "mousedown" .onMouseDown
  let r := addEvent r .minuteHand "mousedown" .onMouseDown
  let r := addEvent r .secondHand "mousedown" .onMouseDown
  let r := addEvent r .doc "mousemove" .onMouseMove
  let r := addEvent r .doc "mouseup" .onMouseUp
  if touch then
    let r := addEvent r .hourHand "touchstart" .onTouchStart
    let r := addEvent r .hourHand "touchmove" .onTouchMove
    let r := addEvent r .hourHand "touchcancel" .onTouchEnd
    let r := addEvent r .hourHand "touchend" .onTouchEnd
    let r := addEvent r .minuteHand "touchstart" .onTouchStart
    let r := addEvent r .minuteHand "touchmove" .onTouchMove
    let r := addEvent r .minuteHand "touchcancel" .onTouchEnd
    let r := addEvent r .minuteHand "touchend" .onTouchEnd
    let r := addEvent r .secondHand "touchstart" .onTouchStart
    let r := addEvent r .secondHand "touchmove" .onTouchMove
    let r := addEvent r .secondHand "touchcancel" .onTouchEnd
    addEvent r .secondHand "touchend" .onTouchEnd
  else r

/-- `Blockly.TimePicker.prototype.unbindClockEvents` (lines 689-710): the
same registrations, removed via the prototype methods. -/
def unbindClockEvents (touch : Bool) (regs : List Listener) : List Listener :=
  let r := removeEvent regs .hourHand "mousedown" .onMouseDown
  let r := removeEvent r .minuteHand "mousedown" .onMouseDown
  let r := removeEvent r .secondHand "mousedown" .onMouseDown
  let r := removeEvent r .doc "mousemove" .onMouseMove
  let r := removeEvent r .doc "mouseup" .onMouseUp
  if touch then
    let r := removeEvent r .hourHand "touchstart" .onTouchStart
    let r := removeEvent r .hourHand "touchmove" .onTouchMove
    let r := removeEvent r .hourHand "touchcancel" .onTouchEnd
    let r := removeEvent r .hourHand "touchend" .onTouchEnd
    let r := removeEvent r .minuteHand "touchstart" .onTouchStart
    let r := removeEvent r .minuteHand "touchmove" .onTouchMove
    let r := removeEvent r .minuteHand "touchcancel" .onTouchEnd
    let r := removeEvent r .minuteHand "touchend" .onTouchEnd
    let r := removeEvent r .secondHand "touchstart" .onTouchStart
    let r := removeEvent r .secondHand "touchmove" .onTouchMove
    let r := removeEvent r .secondHand "touchcancel" .onTouchEnd
    removeEvent r .secondHand "touchend" .onTouchEnd
  else r

/-- The picker's externally visible disposal state: its active listener
registrations and its pending `setTimeout` id. -/
structure PickerDom where
  listeners : List Listener
  timerId : Option Nat
deriving DecidableEq, Repr

/-- `Blockly.TimePicker.prototype.destroy` (lines 712-720): it calls
`unbindClockEvents` and detaches the DOM nodes; no statement of its body
reads or clears `timerId`. -/
def destroy (touch : Bool) (p : PickerDom) : PickerDom :=
  { p with listeners := unbindClockEvents touch p.listeners }

/-! ### The degree/time invariant (claim C3) -/

/-- The property claimed by the spec: hand angles normalized into
[0, 360) and the derived minute/second fields inside 0..59. -/
def DegTimeInv (st : ClockState) : Prop :=
  0 ≤ st.lastHourDeg ∧ st.lastHourDeg < 360 ∧
  0 ≤ st.lastMinuteDeg ∧ st.lastMinuteDeg < 360 ∧
  0 ≤ st.lastSecondDeg ∧ st.lastSecondDeg < 360 ∧
  0 ≤ st.minute ∧ st.minute < 60 ∧
  0 ≤ st.second ∧ st.second < 60

instance (st : ClockState) : Decidable (DegTimeInv st) := by
  unfold DegTimeInv; infer_instance

/-- The inductive strengthening: additionally the hour field lies in
0..23. -/
def PickerInv (st : ClockState) : Prop :=
  DegTimeInv st ∧ 0 ≤ st.hour ∧ st.hour < 24

instance (st : ClockState) : Decidable (PickerInv st) := by
  unfold PickerInv; infer_instance

/-! ### Minute-hand drags as sequences of steps (claim C2) -/

/-- A single minute-hand `onPtrMove` step at bearing `deg`. -/
def minuteStep (st : ClockState) (deg : ℚ) : ClockState := onPtrMoveDeg st .minuteH deg

/-- The seam-crossing direction the wrap branch applies on this step: `1`
when the minute hand crosses the 0°/360° seam forward, `-1` backward, `0`
when the wrap branch of lines 587-592 is not taken. -/
def minuteWrapK (st : ClockState) (deg : ℚ) : ℤ :=
  if 270 < st.lastMinuteDeg ∧ st.lastMinuteDeg < 360 ∧ 0 ≤ deg ∧ deg < 90 then 1
  else if 270 < deg ∧ deg < 360 ∧ 0 ≤ st.lastMinuteDeg ∧ st.lastMinuteDeg < 90 then -1
  else 0

/-- The advancement of the minute-hand angle in one step: the change of
`lastMinuteDeg`, counting a full turn for a seam crossing. -/
def minuteAdv (st : ClockState) (deg : ℚ) : ℚ :=
  ((minuteStep st deg).lastMinuteDeg - st.lastMinuteDeg) + 360 * (minuteWrapK st deg : ℚ)

/-- Run a whole drag: one `onPtrMove` step per recorded bearing. -/
def minuteRun (st : ClockState) : List ℚ → ClockState
  | [] => st
  | d :: ds => minuteRun (minuteStep st d) ds

/-- The per-step advancements of a drag. -/
def minuteAdvs (st : ClockState) : List ℚ → List ℚ
  | [] => []
  | d :: ds => minuteAdv st d :: minuteAdvs (minuteStep st d) ds

/-- How many steps of the drag toggle `isPM`. -/
def pmToggles (st : ClockState) : List ℚ → ℕ
  | [] => 0
  | d :: ds =>
      (if (minuteStep st d).isPM = st.isPM then 0 else 1) + pmToggles (minuteStep st d) ds

/-- How many steps carry the hour hand forward across the 12 o'clock mark:
a forward seam crossing taken while the hour hand sits in its last sector
[330°, 360°). -/
def noonCrossings (st : ClockState) : List ℚ → ℕ
  | [] => 0
  | d :: ds =>
      (if minuteWrapK st d = 1 ∧ 330 ≤ st.lastHourDeg then 1 else 0)
        + noonCrossings (minuteStep st d) ds

/-- How many steps take the forward wrap branch. -/
def forwardWraps (st : ClockState) : List ℚ → ℕ
  | [] => 0
  | d :: ds => (if minuteWrapK st d = 1 then 1 else 0) + forwardWraps (minuteStep st d) ds

/-- The canonical state of an editable picker showing the mod-12 hour `h`,
minute `m`, second `s` and meridiem `pm` — exactly the state `updateClock`
leaves behind (see `canon_eq_updateClock`). -/
def canon (ic i24 ss : Bool) (h m s : ℤ) (pm : Bool) : ClockState :=
  { isClock := ic, is24H := i24, showSecods := ss,
    hour := h + (if pm then 12 else 0), minute := m, second := s,
    isPM := pm, isReverseRotate := false,
    lastHourDeg := 30 * (h : ℚ) + (m : ℚ) / 2 + (s : ℚ) / 120,
    lastMinuteDeg := 6 * (m : ℚ) + (s : ℚ) / 10,
    lastSecondDeg := 6 * (s : ℚ) }


/-! ### Small projection and evaluation lemmas -/

@[simp] lemma updateClock_isClock (st : ClockState) : (updateClock st).isClock = st.isClock := rfl
@[simp] lemma updateClock_is24H (st : ClockState) : (updateClock st).is24H = st.is24H := rfl
@[simp] lemma updateClock_showSecods (st : ClockState) :
    (updateClock st).showSecods = st.showSecods := rfl
@[simp] lemma updateClock_hour (st : ClockState) : (updateClock st).hour = st.hour := rfl
@[simp] lemma updateClock_minute (st : ClockState) : (updateClock st).minute = st.minute := rfl
@[simp] lemma updateClock_second (st : ClockState) : (updateClock st).second = st.second := rfl
@[simp] lemma updateClock_isPM (st : ClockState) : (updateClock st).isPM = st.isPM := rfl
@[simp] lemma updateClock_isReverseRotate (st : ClockState) :
    (updateClock st).isReverseRotate = st.isReverseRotate := rfl

lemma getTimeString_updateClock (st : ClockState) :
    getTimeString (updateClock st) = getTimeString st := rfl

lemma jsIntRem_of_nonneg (a b : ℤ) (h : 0 ≤ a) : jsIntRem a b = a % b := by
  simp [jsIntRem, h]

lemma jsIntRem_eq_self (a b : ℤ) (h0 : 0 ≤ a) (h : a < b) : jsIntRem a b = a := by
  rw [jsIntRem_of_nonneg a b h0]
  exact Int.emod_eq_of_lt h0 h

lemma jsIntRem_bounds (a b : ℤ) (h0 : 0 ≤ a) (hb : 0 < b) :
    0 ≤ jsIntRem a b ∧ jsIntRem a b < b := by
  rw [jsIntRem_of_nonneg a b h0]
  exact ⟨Int.emod_nonneg a (by omega), Int.emod_lt_of_pos a hb⟩

lemma jsPad2_len_fin : ∀ k : Fin 100, (jsPad2 (k : ℤ)).length = 2 := by decide

lemma jsPad2_len (n : ℤ) (h0 : 0 ≤ n) (h : n < 100) : (jsPad2 n).length = 2 := by
  have hk := jsPad2_len_fin ⟨n.toNat, by omega⟩
  simpa [Int.toNat_of_nonneg h0] using hk

/-! ### Arithmetic toolkit: truncation, JS remainder, normalization -/

lemma jsTrunc_of_nonneg (q : ℚ) (h : 0 ≤ q) : jsTrunc q = ⌊q⌋ := by
  simp [jsTrunc, h]

lemma jsRem_of_nonneg (a b : ℚ) (ha : 0 ≤ a) (hb : 0 < b) :
    jsRem a b = a - b * ⌊a / b⌋ := by
  rw [jsRem, jsTrunc_of_nonneg _ (div_nonneg ha hb.le)]

lemma jsRem_bounds (a b : ℚ) (ha : 0 ≤ a) (hb : 0 < b) :
    0 ≤ jsRem a b ∧ jsRem a b < b := by
  rw [jsRem_of_nonneg a b ha hb]
  have h1 : (⌊a / b⌋ : ℚ) ≤ a / b := Int.floor_le _
  have h2 : a / b < ⌊a / b⌋ + 1 := Int.lt_floor_add_one _
  have e : b * (a / b) = a := by field_simp
  have h3 : b * (⌊a / b⌋ : ℚ) ≤ a := by
    calc b * (⌊a / b⌋ : ℚ) ≤ b * (a / b) := by
          exact mul_le_mul_of_nonneg_left h1 hb.le
      _ = a := e
  have h4 : a < b * (⌊a / b⌋ : ℚ) + b := by
    have := mul_lt_mul_of_pos_left h2 hb
    rw [e, mul_add, mul_one] at this
    linarith
  constructor <;> linarith

lemma jsRem_eq_self (a b : ℚ) (ha : 0 ≤ a) (hab : a < b) : jsRem a b = a := by
  have hb : 0 < b := lt_of_le_of_lt ha hab
  rw [jsRem_of_nonneg a b ha hb]
  have hfl : ⌊a / b⌋ = 0 := by
    rw [Int.floor_eq_zero_iff]
    constructor
    · exact div_nonneg ha hb.le
    · rw [div_lt_one hb]; exact hab
  rw [hfl]
  push_cast
  ring

lemma jsRem_shift (a b : ℚ) (hb : 0 < b) (h1 : b ≤ a) (h2 : a < 2 * b) :
    jsRem a b = a - b := by
  have ha : 0 ≤ a := le_trans hb.le h1
  rw [jsRem_of_nonneg a b ha hb]
  have hfl : ⌊a / b⌋ = 1 := by
    have hlow : (1 : ℚ) ≤ a / b := (le_div_iff₀ hb).2 (by linarith)
    have hhigh : a / b < 2 := (div_lt_iff₀ hb).2 (by linarith)
    have hlow2 : (1 : ℤ) ≤ ⌊a / b⌋ := Int.le_floor.2 (by exact_mod_cast hlow)
    have hhigh2 : ⌊a / b⌋ < 2 := Int.floor_lt.2 (by exact_mod_cast hhigh)
    omega
  rw [hfl]
  push_cast
  ring

lemma norm360_eq_self (x : ℚ) (h0 : 0 ≤ x) (h1 : x < 360) : norm360 x = x := by
  rw [norm360, if_neg (not_lt.2 h0)]
  exact jsRem_eq_self x 360 h0 h1

lemma norm360_sub (x : ℚ) (h0 : 360 ≤ x) (h1 : x < 720) : norm360 x = x - 360 := by
  rw [norm360, if_neg (by linarith)]
  exact jsRem_shift x 360 (by norm_num) h0 (by linarith)

lemma norm360_add (x : ℚ) (h0 : -360 ≤ x) (h1 : x < 0) : norm360 x = x + 360 := by
  rw [norm360, if_pos h1]
  exact jsRem_eq_self (x + 360) 360 (by linarith) (by linarith)

lemma norm360_bounds (x : ℚ) (h : -360 ≤ x) : 0 ≤ norm360 x ∧ norm360 x < 360 := by
  by_cases hx : x < 0
  · rw [norm360_add x h hx]
    constructor <;> linarith
  · rw [norm360, if_neg hx]
    exact jsRem_bounds x 360 (not_lt.1 hx) (by norm_num)

lemma floor_fract_mul_bounds (q : ℚ) :
    0 ≤ ⌊(q - (⌊q⌋ : ℚ)) * 60⌋ ∧ ⌊(q - (⌊q⌋ : ℚ)) * 60⌋ < 60 := by
  have hf0 : (0 : ℚ) ≤ q - (⌊q⌋ : ℚ) := by
    have := Int.floor_le q
    linarith
  have hf1 : q - (⌊q⌋ : ℚ) < 1 := by
    have := Int.lt_floor_add_one q
    linarith
  constructor
  · exact Int.floor_nonneg.2 (by linarith)
  · rw [Int.floor_lt]
    push_cast
    linarith

lemma floor_int_add_of_lt (n : ℤ) (x : ℚ) (h0 : 0 ≤ x) (h1 : x < 1) :
    ⌊(n : ℚ) + x⌋ = n := by
  rw [Int.floor_int_add, Int.floor_eq_zero_iff.2 ⟨h0, h1⟩, add_zero]

lemma updateClock_degBounds (st : ClockState)
    (hh0 : 0 ≤ st.hour) (hh1 : st.hour < 24)
    (hm0 : 0 ≤ st.minute) (hm1 : st.minute < 60)
    (hs0 : 0 ≤ st.second) (hs1 : st.second < 60) :
    0 ≤ (updateClock st).lastHourDeg ∧ (updateClock st).lastHourDeg < 360 ∧
    0 ≤ (updateClock st).lastMinuteDeg ∧ (updateClock st).lastMinuteDeg < 360 ∧
    0 ≤ (updateClock st).lastSecondDeg ∧ (updateClock st).lastSecondDeg < 360 := by
  have hrem : jsIntRem st.hour 12 = st.hour % 12 := jsIntRem_of_nonneg _ _ hh0
  have hq0 : (0 : ℚ) ≤ ((st.hour % 12 : ℤ) : ℚ) := by
    exact_mod_cast Int.emod_nonneg st.hour (by omega)
  have hq1 : ((st.hour % 12 : ℤ) : ℚ) ≤ 11 := by
    exact_mod_cast (by omega : st.hour % 12 ≤ 11)
  have hmq0 : (0 : ℚ) ≤ (st.minute : ℚ) := by exact_mod_cast hm0
  have hmq1 : (st.minute : ℚ) ≤ 59 := by exact_mod_cast (by omega : st.minute ≤ 59)
  have hsq0 : (0 : ℚ) ≤ (st.second : ℚ) := by exact_mod_cast hs0
  have hsq1 : (st.second : ℚ) ≤ 59 := by exact_mod_cast (by omega : st.second ≤ 59)
  simp only [updateClock, hrem]
  refine ⟨?_, ?_, ?_, ?_, ?_, ?_⟩ <;> linarith

lemma deriveTime_hour_bounds (st : ClockState)
    (hH0 : 0 ≤ st.lastHourDeg) (hH1 : st.lastHourDeg < 360) :
    0 ≤ (deriveTime st).hour ∧ (deriveTime st).hour < 24 := by
  have hq0 : (0 : ℚ) ≤ 6 * st.lastHourDeg / 180 := by
    apply div_nonneg (by linarith) (by norm_num)
  have hq1 : 6 * st.lastHourDeg / 180 < 12 := by
    rw [div_lt_iff₀ (by norm_num : (0 : ℚ) < 180)]
    linarith
  have ht : jsTrunc (6 * st.lastHourDeg / 180) = ⌊6 * st.lastHourDeg / 180⌋ :=
    jsTrunc_of_nonneg _ hq0
  have hf0 : 0 ≤ ⌊6 * st.lastHourDeg / 180⌋ := Int.floor_nonneg.2 hq0
  have hf1 : ⌊6 * st.lastHourDeg / 180⌋ < 12 := Int.floor_lt.2 (by exact_mod_cast hq1)
  simp only [deriveTime, ht]
  split_ifs <;> omega

lemma deriveTime_minute_bounds (st : ClockState) (hH0 : 0 ≤ st.lastHourDeg) :
    0 ≤ (deriveTime st).minute ∧ (deriveTime st).minute < 60 := by
  have hq0 : (0 : ℚ) ≤ 6 * st.lastHourDeg / 180 := by
    apply div_nonneg (by linarith) (by norm_num)
  simp only [deriveTime, jsTrunc_of_nonneg _ hq0]
  exact floor_fract_mul_bounds _

lemma deriveTime_second_bounds (st : ClockState) (hM0 : 0 ≤ st.lastMinuteDeg) :
    0 ≤ (deriveTime st).second ∧ (deriveTime st).second < 60 := by
  have hq0 : (0 : ℚ) ≤ 6 * st.lastMinuteDeg / 36 := by
    apply div_nonneg (by linarith) (by norm_num)
  simp only [deriveTime, jsTrunc_of_nonneg _ hq0]
  exact floor_fract_mul_bounds _

lemma delta_adjust_bounds (x : ℚ) (h0 : -360 < x) (h1 : x < 360) :
    -360 < x - jsSign x * 360 ∧ x - jsSign x * 360 < 360 := by
  unfold jsSign
  split_ifs with hz hn
  · constructor <;> linarith
  · constructor <;> linarith
  · have hx : 0 < x := lt_of_le_of_ne (not_lt.1 hn) (Ne.symm hz)
    constructor <;> linarith

lemma minuteHourRaw_bounds (st : ClockState) (deg : ℚ)
    (hH0 : 0 ≤ st.lastHourDeg) (hH1 : st.lastHourDeg < 360)
    (hM0 : 0 ≤ st.lastMinuteDeg) (hM1 : st.lastMinuteDeg < 360)
    (hd0 : 0 ≤ deg) (hd1 : deg < 360) :
    -360 ≤ minuteHourRaw st deg ∧ minuteHourRaw st deg < 720 := by
  have hdel0 : -360 < deg - st.lastMinuteDeg := by linarith
  have hdel1 : deg - st.lastMinuteDeg < 360 := by linarith
  have hadj := delta_adjust_bounds (deg - st.lastMinuteDeg) hdel0 hdel1
  unfold minuteHourRaw
  split_ifs <;> constructor <;> linarith

lemma secondRaw_bounds (st : ClockState) (deg : ℚ)
    (hH0 : 0 ≤ st.lastHourDeg) (hH1 : st.lastHourDeg < 360)
    (hM0 : 0 ≤ st.lastMinuteDeg) (hM1 : st.lastMinuteDeg < 360)
    (hS0 : 0 ≤ st.lastSecondDeg) (hS1 : st.lastSecondDeg < 360)
    (hd0 : 0 ≤ deg) (hd1 : deg < 360) :
    (-360 ≤ secondHourRaw st deg ∧ secondHourRaw st deg < 720) ∧
    (-360 ≤ secondMinuteRaw st deg ∧ secondMinuteRaw st deg < 720) := by
  have hdel0 : -360 < deg - st.lastSecondDeg := by linarith
  have hdel1 : deg - st.lastSecondDeg < 360 := by linarith
  have hadj := delta_adjust_bounds (deg - st.lastSecondDeg) hdel0 hdel1
  unfold secondHourRaw secondMinuteRaw
  split_ifs <;> refine ⟨⟨?_, ?_⟩, ⟨?_, ?_⟩⟩ <;> linarith

/-- Any of the three drag branches keeps all three hand angles inside
[0, 360) and does not touch the integer time fields. -/
lemma dragUpdate_degBounds (st : ClockState) (hand : Hand) (deg : ℚ)
    (hH0 : 0 ≤ st.lastHourDeg) (hH1 : st.lastHourDeg < 360)
    (hM0 : 0 ≤ st.lastMinuteDeg) (hM1 : st.lastMinuteDeg < 360)
    (hS0 : 0 ≤ st.lastSecondDeg) (hS1 : st.lastSecondDeg < 360)
    (hd0 : 0 ≤ deg) (hd1 : deg < 360) :
    0 ≤ (dragBranch st hand deg).lastHourDeg ∧ (dragBranch st hand deg).lastHourDeg < 360 ∧
    0 ≤ (dragBranch st hand deg).lastMinuteDeg ∧
      (dragBranch st hand deg).lastMinuteDeg < 360 ∧
    0 ≤ (dragBranch st hand deg).lastSecondDeg ∧
      (dragBranch st hand deg).lastSecondDeg < 360 := by
  cases hand with
  | hourH =>
      have hr := jsRem_bounds deg 30 hd0 (by norm_num)
      simp only [dragBranch, hourDragUpdate]
      refine ⟨hd0, hd1, ?_, ?_, hS0, hS1⟩ <;> linarith [hr.1, hr.2]
  | minuteH =>
      have hraw := minuteHourRaw_bounds st deg hH0 hH1 hM0 hM1 hd0 hd1
      have hn := norm360_bounds (minuteHourRaw st deg) hraw.1
      simp only [dragBranch, minuteDragUpdate]
      exact ⟨hn.1, hn.2, hd0, hd1, hS0, hS1⟩
  | secondH =>
      have hraw := secondRaw_bounds st deg hH0 hH1 hM0 hM1 hS0 hS1 hd0 hd1
      have hn1 := norm360_bounds (secondHourRaw st deg) hraw.1.1
      have hn2 := norm360_bounds (secondMinuteRaw st deg) hraw.2.1
      simp only [dragBranch, secondDragUpdate]
      exact ⟨hn1.1, hn1.2, hn2.1, hn2.2, hd0, hd1⟩

/-- Core preservation step: branch, re-derive, re-quantize. -/
lemma moveCore_inv (st : ClockState) (hand : Hand) (d : ℚ)
    (hinv : PickerInv st) (hd0 : 0 ≤ d) (hd1 : d < 360) :
    PickerInv (updateClock (deriveTime (dragBranch st hand d))) := by
  obtain ⟨⟨hH0, hH1, hM0, hM1, hS0, hS1, hm0, hm1, hs0, hs1⟩, hh0, hh1⟩ := hinv
  obtain ⟨bH0, bH1, bM0, bM1, bS0, bS1⟩ :=
    dragUpdate_degBounds st hand d hH0 hH1 hM0 hM1 hS0 hS1 hd0 hd1
  have hco := deriveTime_hour_bounds (dragBranch st hand d) bH0 bH1
  have hcm := deriveTime_minute_bounds (dragBranch st hand d) bH0
  have hcs := deriveTime_second_bounds (dragBranch st hand d) bM0
  have hfin := updateClock_degBounds (deriveTime (dragBranch st hand d))
    hco.1 hco.2 hcm.1 hcm.2 hcs.1 hcs.2
  refine ⟨⟨hfin.1, hfin.2.1, hfin.2.2.1, hfin.2.2.2.1, hfin.2.2.2.2.1, hfin.2.2.2.2.2,
    ?_, ?_, ?_, ?_⟩, ?_, ?_⟩
  · simpa using hcm.1
  · simpa using hcm.2
  · simpa using hcs.1
  · simpa using hcs.2
  · simpa using hco.1
  · simpa using hco.2

/-- `onPtrMove` preserves the picker invariant for any drag target and any
atan2-range bearing. -/
lemma onPtrMoveDeg_inv (st : ClockState) (hand : Hand) (deg0 : ℚ)
    (hinv : PickerInv st) (hd0 : -180 ≤ deg0) (hd1 : deg0 < 180) :
    PickerInv (onPtrMoveDeg st hand deg0) := by
  have hdb : 0 ≤ (if (if st.isReverseRotate then deg0 - 180 else deg0) < 0
        then (if st.isReverseRotate then deg0 - 180 else deg0) + 360
        else (if st.isReverseRotate then deg0 - 180 else deg0)) ∧
      (if (if st.isReverseRotate then deg0 - 180 else deg0) < 0
        then (if st.isReverseRotate then deg0 - 180 else deg0) + 360
        else (if st.isReverseRotate then deg0 - 180 else deg0)) < 360 := by
    cases st.isReverseRotate <;> simp only [Bool.false_eq_true, if_true, if_false] <;>
      split_ifs <;> constructor <;> linarith
  exact moveCore_inv st hand _ hinv hdb.1 hdb.2

lemma setHours_inv (st : ClockState) (h : ℤ) (hinv : PickerInv st) (h0 : 0 ≤ h) :
    PickerInv (setHours st h) := by
  obtain ⟨⟨hH0, hH1, hM0, hM1, hS0, hS1, hm0, hm1, hs0, hs1⟩, hh0, hh1⟩ := hinv
  unfold setHours
  by_cases hc : st.isClock
  · rw [if_pos hc]
    exact ⟨⟨hH0, hH1, hM0, hM1, hS0, hS1, hm0, hm1, hs0, hs1⟩, hh0, hh1⟩
  · rw [if_neg hc]
    obtain ⟨r0, r1⟩ := jsIntRem_bounds h 24 h0 (by norm_num)
    have hsec : (0 ≤ (if st.showSecods then st.second else 0)) ∧
        (if st.showSecods then st.second else 0) < 60 := by
      split_ifs <;> constructor <;> omega
    have hfin := updateClock_degBounds
      { st with hour := jsIntRem h 24, second := if st.showSecods then st.second else 0 }
      r0 r1 hm0 hm1 hsec.1 hsec.2
    exact ⟨⟨hfin.1, hfin.2.1, hfin.2.2.1, hfin.2.2.2.1, hfin.2.2.2.2.1, hfin.2.2.2.2.2,
      hm0, hm1, hsec.1, hsec.2⟩, r0, r1⟩

lemma setMinutes_inv (st : ClockState) (m : ℤ) (hinv : PickerInv st) (h0 : 0 ≤ m) :
    PickerInv (setMinutes st m) := by
  obtain ⟨⟨hH0, hH1, hM0, hM1, hS0, hS1, hm0, hm1, hs0, hs1⟩, hh0, hh1⟩ := hinv
  unfold setMinutes
  by_cases hc : st.isClock
  · rw [if_pos hc]
    exact ⟨⟨hH0, hH1, hM0, hM1, hS0, hS1, hm0, hm1, hs0, hs1⟩, hh0, hh1⟩
  · rw [if_neg hc]
    obtain ⟨r0, r1⟩ := jsIntRem_bounds m 60 h0 (by norm_num)
    have hsec : (0 ≤ (if st.showSecods then st.second else 0)) ∧
        (if st.showSecods then st.second else 0) < 60 := by
      split_ifs <;> constructor <;> omega
    have hfin := updateClock_degBounds
      { st with minute := jsIntRem m 60, second := if st.showSecods then st.second else 0 }
      hh0 hh1 r0 r1 hsec.1 hsec.2
    exact ⟨⟨hfin.1, hfin.2.1, hfin.2.2.1, hfin.2.2.2.1, hfin.2.2.2.2.1, hfin.2.2.2.2.2,
      r0, r1, hsec.1, hsec.2⟩, hh0, hh1⟩

lemma setSeconds_inv (st : ClockState) (s : ℤ) (hinv : PickerInv st) (h0 : 0 ≤ s) :
    PickerInv (setSeconds st s) := by
  obtain ⟨⟨hH0, hH1, hM0, hM1, hS0, hS1, hm0, hm1, hs0, hs1⟩, hh0, hh1⟩ := hinv
  unfold setSeconds
  by_cases hc : st.isClock
  · rw [if_pos hc]
    exact ⟨⟨hH0, hH1, hM0, hM1, hS0, hS1, hm0, hm1, hs0, hs1⟩, hh0, hh1⟩
  · rw [if_neg hc]
    have hsec : (0 ≤ (if st.showSecods then jsIntRem s 60 else 0)) ∧
        (if st.showSecods then jsIntRem s 60 else 0) < 60 := by
      obtain ⟨r0, r1⟩ := jsIntRem_bounds s 60 h0 (by norm_num)
      split_ifs <;> constructor <;> omega
    have hfin := updateClock_degBounds
      { st with second := if st.showSecods then jsIntRem s 60 else 0 }
      hh0 hh1 hm0 hm1 hsec.1 hsec.2
    exact ⟨⟨hfin.1, hfin.2.1, hfin.2.2.1, hfin.2.2.2.1, hfin.2.2.2.2.1, hfin.2.2.2.2.2,
      hm0, hm1, hsec.1, hsec.2⟩, hh0, hh1⟩

lemma setAM_inv (st : ClockState) (hinv : PickerInv st) : PickerInv (setAM st) := by
  obtain ⟨⟨hH0, hH1, hM0, hM1, hS0, hS1, hm0, hm1, hs0, hs1⟩, hh0, hh1⟩ := hinv
  have hfin := updateClock_degBounds { st with isPM := false } hh0 hh1 hm0 hm1 hs0 hs1
  exact ⟨⟨hfin.1, hfin.2.1, hfin.2.2.1, hfin.2.2.2.1, hfin.2.2.2.2.1, hfin.2.2.2.2.2,
    hm0, hm1, hs0, hs1⟩, hh0, hh1⟩

lemma setPM_inv (st : ClockState) (hinv : PickerInv st) : PickerInv (setPM st) := by
  obtain ⟨⟨hH0, hH1, hM0, hM1, hS0, hS1, hm0, hm1, hs0, hs1⟩, hh0, hh1⟩ := hinv
  have hfin := updateClock_degBounds { st with isPM := true } hh0 hh1 hm0 hm1 hs0 hs1
  exact ⟨⟨hfin.1, hfin.2.1, hfin.2.2.1, hfin.2.2.2.1, hfin.2.2.2.2.1, hfin.2.2.2.2.2,
    hm0, hm1, hs0, hs1⟩, hh0, hh1⟩

lemma mkTimePicker_inv (i24 ss : Bool) (h m s : ℤ)
    (h0 : 0 ≤ h) (m0 : 0 ≤ m) (s0 : 0 ≤ s) :
    PickerInv (mkTimePicker false i24 ss h m s) := by
  obtain ⟨rh0, rh1⟩ := jsIntRem_bounds h 24 h0 (by norm_num)
  obtain ⟨rm0, rm1⟩ := jsIntRem_bounds m 60 m0 (by norm_num)
  have hsec : (0 ≤ (if !false && !ss then 0 else jsIntRem s 60)) ∧
      (if !false && !ss then 0 else jsIntRem s 60) < 60 := by
    obtain ⟨rs0, rs1⟩ := jsIntRem_bounds s 60 s0 (by norm_num)
    split_ifs <;> constructor <;> omega
  have hfin := updateClock_degBounds
    { isClock := false, is24H := i24, showSecods := ss,
      hour := jsIntRem h 24, minute := jsIntRem m 60,
      second := if !false && !ss then 0 else jsIntRem s 60,
      isPM := decide (12 ≤ h), isReverseRotate := false,
      lastHourDeg := 0, lastMinuteDeg := 0, lastSecondDeg := 0 }
    rh0 rh1 rm0 rm1 hsec.1 hsec.2
  exact ⟨⟨hfin.1, hfin.2.1, hfin.2.2.1, hfin.2.2.2.1, hfin.2.2.2.2.1, hfin.2.2.2.2.2,
    rm0, rm1, hsec.1, hsec.2⟩, rh0, rh1⟩

/-! ### Helper lemmas for the mutator round trip -/

lemma map_hide_of_canonical (l : List BInput)
    (h : ∀ i ∈ l, i.visible = !i.advanced_mode) :
    l.map (fun i => if i.advanced_mode then { i with visible := false } else i) = l := by
  induction l with
  | nil => rfl
  | cons a t ih =>
      have ha := h a (by simp)
      have ht : ∀ i ∈ t, i.visible = !i.advanced_mode := fun i hi => h i (by simp [hi])
      cases a with
      | mk adv vis =>
          cases adv <;> simp_all [List.map_cons]

lemma map_show_hide_of_canonical (l : List BInput)
    (h : ∀ i ∈ l, i.visible = !i.advanced_mode) :
    (l.map (fun i => { i with visible := true })).map
      (fun i => if i.advanced_mode then { i with visible := false } else i) = l := by
  induction l with
  | nil => rfl
  | cons a t ih =>
      have ha := h a (by simp)
      have ht : ∀ i ∈ t, i.visible = !i.advanced_mode := fun i hi => h i (by simp [hi])
      cases a with
      | mk adv vis =>
          cases adv <;> simp_all [List.map_cons]

/-! ### Claim theorems (first group) -/

/-- C5: from the picker state 23:59 (isPM true, minute hand at 354°), a
single minute-hand `onPtrMove` step to bearing 0° (forward across the
0°/360° seam) yields hour 0, minute 0, and flips `isPM` to false. -/
theorem midnightRollover :
    (updateClock ⟨false, true, false, 23, 59, 0, true, false, 0, 0, 0⟩).lastMinuteDeg = 354 ∧
    (updateClock ⟨false, true, false, 23, 59, 0, true, false, 0, 0, 0⟩).isPM = true ∧
    onPtrMoveDeg (updateClock ⟨false, true, false, 23, 59, 0, true, false, 0, 0, 0⟩)
        .minuteH 0 =
      ⟨false, true, false, 0, 0, 0, false, false, 0, 0, 0⟩ := by
  norm_num [onPtrMoveDeg, dragBranch, updateClock, deriveTime, minuteDragUpdate,
    minuteHourRaw, norm360, seamWrap, jsSign, jsTrunc, jsRem, jsIntRem, ClockState.mk.injEq]

/-- C8: the class validator returns `null` exactly on an absent or empty
input, and returns every non-empty input string unchanged. -/
theorem classValidation_spec :
    ∀ v : Option String,
      (doClassValidation v = none ↔ v = none ∨ v = some "") ∧
      (∀ s : String, s ≠ "" → doClassValidation (some s) = some s) := by
  intro v
  refine ⟨?_, ?_⟩
  · cases v with
    | none => simp [doClassValidation]
    | some s =>
        by_cases h : s = "" <;> simp [doClassValidation, h]
  · intro s hs
    simp [doClassValidation, hs]

/-- Witness for C8 at the concrete input "12:30". -/
theorem classValidation_spec_witness :
    doClassValidation (some "12:30") = some "12:30" :=
  (classValidation_spec (some "12:30")).2 "12:30" (by decide)

/-- C9 (code bug): on a picker whose events were bound by
`bindClockEvents` and whose clock timer is pending, `destroy` removes no
listener at all — `addEvent` registered `callback.bind(instance)` wrappers
while `removeEvent` is handed the unbound prototype methods, so
`removeEventListener` matches nothing — and it leaves `timerId` pending. -/
theorem destroyLeavesListeners :
    destroy true ⟨bindClockEvents true [], some 1⟩ = ⟨bindClockEvents true [], some 1⟩ ∧
    bindClockEvents true [] ≠ [] ∧
    destroy false ⟨bindClockEvents false [], some 1⟩ = ⟨bindClockEvents false [], some 1⟩ ∧
    (destroy true ⟨bindClockEvents true [], some 1⟩).timerId = some 1 := by
  decide

/-- C7 counterexample: a non-collapsed block in simple mode with one
unflagged, initially hidden input.  Toggling advanced mode on and back off
leaves that input visible, so the original visible-input set is not
restored. -/
theorem advancedRoundTrip_cex :
    (setAdvancedMode (setAdvancedMode ⟨false, false, [⟨false, false⟩]⟩ true) false).inputs.map
        BInput.visible ≠
      (Block.mk false false [⟨false, false⟩]).inputs.map BInput.visible := by
  decide

/-- C7 amended: toggling advanced mode on and back off restores the block
exactly, provided the block starts in the canonical simple-mode state:
`advanced_mode` off and every input visible if and only if it is not
flagged advanced.  (Collapsed blocks are covered too.) -/
theorem advancedRoundTrip_amended (b : Block) (hmode : b.advanced_mode = false)
    (hcanon : ∀ i ∈ b.inputs, i.visible = !i.advanced_mode) :
    setAdvancedMode (setAdvancedMode b true) false = b := by
  cases b with
  | mk coll adv l =>
      subst hmode
      cases coll with
      | false =>
          simp only [setAdvancedMode, if_pos, if_neg]
          simp [map_show_hide_of_canonical l hcanon]
      | true =>
          simp only [setAdvancedMode]
          simp [map_hide_of_canonical l hcanon]

/-- Witness for C7 on a concrete two-input block (one advanced-flagged and
hidden, one plain and visible). -/
theorem advancedRoundTrip_amended_witness :
    setAdvancedMode (setAdvancedMode ⟨false, false, [⟨true, false⟩, ⟨false, true⟩]⟩ true) false =
      ⟨false, false, [⟨true, false⟩, ⟨false, true⟩]⟩ :=
  advancedRoundTrip_amended ⟨false, false, [⟨true, false⟩, ⟨false, true⟩]⟩ rfl (by decide)

/-- C1: setting the picker to hour H, minute M, second S (the `updateClock`
angle derivation) and then running the degree-to-time derivation of
`onPtrMove` recovers the hour modulo 12, the minute exactly, and the second
exactly. -/
theorem timeDegreeRoundTrip (st : ClockState)
    (hh0 : 0 ≤ st.hour) (hh1 : st.hour < 24)
    (hm0 : 0 ≤ st.minute) (hm1 : st.minute < 60)
    (hs0 : 0 ≤ st.second) (hs1 : st.second < 60) :
    (deriveTime (updateClock st)).hour % 12 = st.hour % 12 ∧
    (deriveTime (updateClock st)).minute = st.minute ∧
    (deriveTime (updateClock st)).second = st.second := by
  have hmq0 : (0 : ℚ) ≤ (st.minute : ℚ) := by exact_mod_cast hm0
  have hmq59 : (st.minute : ℚ) ≤ 59 := by exact_mod_cast (by omega : st.minute ≤ 59)
  have hsq0 : (0 : ℚ) ≤ (st.second : ℚ) := by exact_mod_cast hs0
  have hsq59 : (st.second : ℚ) ≤ 59 := by exact_mod_cast (by omega : st.second ≤ 59)
  have hrem : jsIntRem st.hour 12 = st.hour % 12 := jsIntRem_of_nonneg _ _ hh0
  have hH0 : 0 ≤ st.hour % 12 := Int.emod_nonneg _ (by omega)
  have hHq0 : (0 : ℚ) ≤ ((st.hour % 12 : ℤ) : ℚ) := by exact_mod_cast hH0
  have e1 : 6 * (updateClock st).lastMinuteDeg / 36
      = ((st.minute : ℤ) : ℚ) + (st.second : ℚ) / 60 := by
    simp only [updateClock]
    ring
  have e2 : 6 * (updateClock st).lastHourDeg / 180
      = ((st.hour % 12 : ℤ) : ℚ) + ((st.minute : ℚ) / 60 + (st.second : ℚ) / 3600) := by
    simp only [updateClock, hrem]
    ring
  have t1 : jsTrunc (((st.minute : ℤ) : ℚ) + (st.second : ℚ) / 60) = st.minute := by
    rw [jsTrunc_of_nonneg _ (by linarith)]
    exact floor_int_add_of_lt st.minute _ (by linarith) (by linarith)
  have t2 : jsTrunc (((st.hour % 12 : ℤ) : ℚ) +
      ((st.minute : ℚ) / 60 + (st.second : ℚ) / 3600)) = st.hour % 12 := by
    rw [jsTrunc_of_nonneg _ (by linarith)]
    exact floor_int_add_of_lt (st.hour % 12) _ (by linarith) (by linarith)
  refine ⟨?_, ?_, ?_⟩
  · simp only [deriveTime, updateClock_isPM, e2, t2]
    split_ifs with hpm <;> omega
  · simp only [deriveTime, e2, t2]
    have e3 : (((st.hour % 12 : ℤ) : ℚ) + ((st.minute : ℚ) / 60 + (st.second : ℚ) / 3600)
        - ((st.hour % 12 : ℤ) : ℚ)) * 60
        = ((st.minute : ℤ) : ℚ) + (st.second : ℚ) / 60 := by
      ring
    rw [e3]
    exact floor_int_add_of_lt st.minute _ (by linarith) (by linarith)
  · simp only [deriveTime, e1, t1]
    have e4 : (((st.minute : ℤ) : ℚ) + (st.second : ℚ) / 60 - ((st.minute : ℤ) : ℚ)) * 60
        = ((st.second : ℤ) : ℚ) := by
      ring
    rw [e4, Int.floor_intCast]

/-- Witness for C1 at the concrete time 13:37:21. -/
theorem timeDegreeRoundTrip_witness :
    (deriveTime (updateClock ⟨false, true, true, 13, 37, 21, true, false, 0, 0, 0⟩)).hour % 12
        = (13 : ℤ) % 12 ∧
    (deriveTime (updateClock ⟨false, true, true, 13, 37, 21, true, false, 0, 0, 0⟩)).minute = 37 ∧
    (deriveTime (updateClock ⟨false, true, true, 13, 37, 21, true, false, 0, 0, 0⟩)).second = 21 :=
  timeDegreeRoundTrip ⟨false, true, true, 13, 37, 21, true, false, 0, 0, 0⟩
    (by norm_num) (by norm_num) (by norm_num) (by norm_num) (by norm_num) (by norm_num)

/-- In 12-hour display mode the rendered string always ends in the
`" AM"`/`" PM"` suffix selected by `isPM`. -/
lemma getTimeString_suffix (st : ClockState) (h24 : st.is24H = false) :
    ∃ p : String, getTimeString st = p ++ (if st.isPM then " PM" else " AM") := by
  cases hpm : st.isPM with
  | false =>
      refine ⟨(if st.showSecods then
          jsPad2 (if jsIntRem st.hour 12 = 0 then 12 else jsIntRem st.hour 12) ++ ":" ++
            jsPad2 st.minute ++ ":" ++ jsPad2 st.second
        else jsPad2 (if jsIntRem st.hour 12 = 0 then 12 else jsIntRem st.hour 12) ++ ":" ++
            jsPad2 st.minute), ?_⟩
      simp only [getTimeString, h24, hpm]
      cases hs : st.showSecods <;> simp [String.append_assoc]
  | true =>
      refine ⟨(if st.showSecods then
          jsPad2 (if jsIntRem st.hour 12 = 0 then 12 else jsIntRem st.hour 12) ++ ":" ++
            jsPad2 st.minute ++ ":" ++ jsPad2 st.second
        else jsPad2 (if jsIntRem st.hour 12 = 0 then 12 else jsIntRem st.hour 12) ++ ":" ++
            jsPad2 st.minute), ?_⟩
      simp only [getTimeString, h24, hpm]
      cases hs : st.showSecods <;> simp [String.append_assoc]

/-- C4: `getTimeString` in 12-hour mode: hour 0 with minute 0 renders as
"12:00 AM" and hour 13 as "01:00 PM"; in general the rendered string is a
two-digit hour, a colon, a two-digit minute — and, when seconds are shown,
a further colon and two-digit second — followed by a trailing " AM" or
" PM" suffix chosen by the hour's half of the day. -/
theorem getTimeString12h :
    getTimeString (mkTimePicker false false false 0 0 0) = "12:00 AM" ∧
    getTimeString (mkTimePicker false false false 13 0 0) = "01:00 PM" ∧
    (∀ h m : ℤ, 0 ≤ h → h < 24 → 0 ≤ m → m < 60 →
      ∃ hh mm : String, hh.length = 2 ∧ mm.length = 2 ∧
        getTimeString (mkTimePicker false false false h m 0) =
          hh ++ ":" ++ mm ++ (if 12 ≤ h then " PM" else " AM")) ∧
    (∀ h m s : ℤ, 0 ≤ h → h < 24 → 0 ≤ m → m < 60 → 0 ≤ s → s < 60 →
      ∃ hh mm ss : String, hh.length = 2 ∧ mm.length = 2 ∧ ss.length = 2 ∧
        getTimeString (mkTimePicker false false true h m s) =
          hh ++ ":" ++ mm ++ ":" ++ ss ++ (if 12 ≤ h then " PM" else " AM")) := by
  refine ⟨by decide, by decide, ?_, ?_⟩
  · intro h m h0 hlt m0 mlt
    have hh24 : jsIntRem h 24 = h := jsIntRem_eq_self h 24 h0 hlt
    have hm60 : jsIntRem m 60 = m := jsIntRem_eq_self m 60 m0 mlt
    have hrem12 : jsIntRem h 12 = h % 12 := jsIntRem_of_nonneg h 12 h0
    have hd0 : 0 ≤ h % 12 := Int.emod_nonneg h (by omega)
    have hd12 : h % 12 < 12 := Int.emod_lt_of_pos h (by omega)
    refine ⟨jsPad2 (if h % 12 = 0 then 12 else h % 12), jsPad2 m, ?_, ?_, ?_⟩
    · by_cases hz : h % 12 = 0 <;> simp only [hz, if_pos, if_neg, if_true, if_false] <;>
        first
          | exact jsPad2_len 12 (by omega) (by omega)
          | exact jsPad2_len _ (by omega) (by omega)
    · exact jsPad2_len m m0 (by omega)
    · rw [mkTimePicker, getTimeString_updateClock]
      simp only [getTimeString, hh24, hm60, hrem12]
      by_cases hpm : 12 ≤ h <;> simp [hpm, String.append_assoc]
  · intro h m s h0 hlt m0 mlt s0 slt
    have hh24 : jsIntRem h 24 = h := jsIntRem_eq_self h 24 h0 hlt
    have hm60 : jsIntRem m 60 = m := jsIntRem_eq_self m 60 m0 mlt
    have hs60 : jsIntRem s 60 = s := jsIntRem_eq_self s 60 s0 slt
    have hrem12 : jsIntRem h 12 = h % 12 := jsIntRem_of_nonneg h 12 h0
    have hd0 : 0 ≤ h % 12 := Int.emod_nonneg h (by omega)
    have hd12 : h % 12 < 12 := Int.emod_lt_of_pos h (by omega)
    refine ⟨jsPad2 (if h % 12 = 0 then 12 else h % 12), jsPad2 m, jsPad2 s, ?_, ?_, ?_, ?_⟩
    · by_cases hz : h % 12 = 0 <;> simp only [hz, if_pos, if_neg, if_true, if_false] <;>
        first
          | exact jsPad2_len 12 (by omega) (by omega)
          | exact jsPad2_len _ (by omega) (by omega)
    · exact jsPad2_len m m0 (by omega)
    · exact jsPad2_len s s0 (by omega)
    · rw [mkTimePicker, getTimeString_updateClock]
      by_cases hpm : 12 ≤ h <;>
        simp [getTimeString, hh24, hm60, hs60, hrem12, hpm, String.append_assoc]

/-- Witness for C4's universally quantified parts, at 05:07 without seconds
and at 17:03:42 with seconds shown. -/
theorem getTimeString12h_witness :
    (∃ hh mm : String, hh.length = 2 ∧ mm.length = 2 ∧
      getTimeString (mkTimePicker false false false 5 7 0) =
        hh ++ ":" ++ mm ++ (if (12 : ℤ) ≤ 5 then " PM" else " AM")) ∧
    (∃ hh mm ss : String, hh.length = 2 ∧ mm.length = 2 ∧ ss.length = 2 ∧
      getTimeString (mkTimePicker false false true 17 3 42) =
        hh ++ ":" ++ mm ++ ":" ++ ss ++ (if (12 : ℤ) ≤ 17 then " PM" else " AM")) :=
  ⟨getTimeString12h.2.2.1 5 7 (by decide) (by decide) (by decide) (by decide),
   getTimeString12h.2.2.2 17 3 42 (by decide) (by decide) (by decide) (by decide)
     (by decide) (by decide)⟩

/-- C10: `setHours` on an editable picker only rewrites the hour field (to
`parseInt(h) % 24`, zeroing the second when seconds are hidden); the
minute, the `isPM` flag and the configuration flags are untouched, so in
12-hour mode the AM/PM suffix that `getTimeString` reports is unaffected by
the new hour value. -/
theorem setHours_frame (st : ClockState) (h : ℤ) (hc : st.isClock = false) :
    (setHours st h).hour = jsIntRem h 24 ∧
    (setHours st h).minute = st.minute ∧
    (setHours st h).second = (if st.showSecods then st.second else 0) ∧
    (setHours st h).isPM = st.isPM ∧
    (setHours st h).isClock = st.isClock ∧
    (setHours st h).is24H = st.is24H ∧
    (setHours st h).showSecods = st.showSecods ∧
    (st.is24H = false →
      ∃ p q : String,
        getTimeString st = p ++ (if st.isPM then " PM" else " AM") ∧
        getTimeString (setHours st h) = q ++ (if st.isPM then " PM" else " AM")) := by
  have hset : setHours st h =
      updateClock { st with hour := jsIntRem h 24,
                            second := if st.showSecods then st.second else 0 } := by
    simp [setHours, hc]
  refine ⟨by simp [hset], by simp [hset], by simp [hset], by simp [hset],
          by simp [hset, hc], by simp [hset], by simp [hset], ?_⟩
  intro h24
  obtain ⟨p, hp⟩ := getTimeString_suffix st h24
  obtain ⟨q, hq⟩ := getTimeString_suffix (setHours st h) (by simp [hset, h24])
  refine ⟨p, q, hp, ?_⟩
  have hpm : (setHours st h).isPM = st.isPM := by simp [hset]
  rwa [hpm] at hq

/-- Witness for C10: a 12-hour morning picker (05:30 AM) given
`setHours(13)` keeps minute 30 and stays AM. -/
theorem setHours_frame_witness :
    (setHours (mkTimePicker false false false 5 30 0) 13).hour = jsIntRem 13 24 ∧
    (setHours (mkTimePicker false false false 5 30 0) 13).minute =
      (mkTimePicker false false false 5 30 0).minute ∧
    (setHours (mkTimePicker false false false 5 30 0) 13).second =
      (if (mkTimePicker false false false 5 30 0).showSecods
       then (mkTimePicker false false false 5 30 0).second else 0) ∧
    (setHours (mkTimePicker false false false 5 30 0) 13).isPM =
      (mkTimePicker false false false 5 30 0).isPM ∧
    (setHours (mkTimePicker false false false 5 30 0) 13).isClock =
      (mkTimePicker false false false 5 30 0).isClock ∧
    (setHours (mkTimePicker false false false 5 30 0) 13).is24H =
      (mkTimePicker false false false 5 30 0).is24H ∧
    (setHours (mkTimePicker false false false 5 30 0) 13).showSecods =
      (mkTimePicker false false false 5 30 0).showSecods ∧
    ((mkTimePicker false false false 5 30 0).is24H = false →
      ∃ p q : String,
        getTimeString (mkTimePicker false false false 5 30 0) =
          p ++ (if (mkTimePicker false false false 5 30 0).isPM then " PM" else " AM") ∧
        getTimeString (setHours (mkTimePicker false false false 5 30 0) 13) =
          q ++ (if (mkTimePicker false false false 5 30 0).isPM then " PM" else " AM")) :=
  setHours_frame (mkTimePicker false false false 5 30 0) 13 rfl

/-- C3 counterexample: a valid editable picker (10:00, all degrees in
range), given `setHours(-1)` — a numeric argument the guard `isNaN` lets
through — stores hour `-1` (the JS `%` keeps the dividend's sign) and
`updateClock` then sets `lastHourDeg = -30`, violating the claimed
invariant. -/
theorem degInvariant_cex :
    DegTimeInv (mkTimePicker false true false 10 0 0) ∧
    ¬ DegTimeInv (setHours (mkTimePicker false true false 10 0 0) (-1)) := by
  constructor
  · norm_num [DegTimeInv, mkTimePicker, updateClock, jsIntRem]
  · intro hbad
    have h1 : (0 : ℚ) ≤ (setHours (mkTimePicker false true false 10 0 0) (-1)).lastHourDeg :=
      hbad.1
    norm_num [setHours, mkTimePicker, updateClock, jsIntRem] at h1

/-- C3 amended: the invariant — hand angles in [0, 360), minute and second
in 0..59 — holds after construction and is preserved by every setter and by
every `onPtrMove` step of an editable picker, provided the numeric
arguments to construction and to the setters are non-negative (negative
arguments such as `setHours(-1)` violate it, since the JS `%` keeps the
sign of its dividend). -/
theorem degInvariant_amended :
    (∀ i24 ss : Bool, ∀ h m s : ℤ, 0 ≤ h → 0 ≤ m → 0 ≤ s →
      PickerInv (mkTimePicker false i24 ss h m s)) ∧
    (∀ st : ClockState, PickerInv st → DegTimeInv st) ∧
    (∀ st : ClockState, PickerInv st →
      (∀ h : ℤ, 0 ≤ h → PickerInv (setHours st h)) ∧
      (∀ m : ℤ, 0 ≤ m → PickerInv (setMinutes st m)) ∧
      (∀ s : ℤ, 0 ≤ s → PickerInv (setSeconds st s)) ∧
      PickerInv (setAM st) ∧ PickerInv (setPM st) ∧
      (∀ (hand : Hand) (deg0 : ℚ), -180 ≤ deg0 → deg0 < 180 →
        PickerInv (onPtrMoveDeg st hand deg0))) := by
  refine ⟨?_, ?_, ?_⟩
  · intro i24 ss h m s h0 m0 s0
    exact mkTimePicker_inv i24 ss h m s h0 m0 s0
  · intro st hinv
    exact hinv.1
  · intro st hinv
    refine ⟨?_, ?_, ?_, ?_, ?_, ?_⟩
    · intro h h0; exact setHours_inv st h hinv h0
    · intro m m0; exact setMinutes_inv st m hinv m0
    · intro s s0; exact setSeconds_inv st s hinv s0
    · exact setAM_inv st hinv
    · exact setPM_inv st hinv
    · intro hand deg0 hd0 hd1; exact onPtrMoveDeg_inv st hand deg0 hinv hd0 hd1

/-- Witness for C3's amended invariant: a concrete editable picker, one
minute-hand move and one `setHours` call. -/
theorem degInvariant_amended_witness :
    PickerInv (mkTimePicker false true true 7 8 9) ∧
    PickerInv (onPtrMoveDeg (mkTimePicker false true true 7 8 9) .minuteH 90) ∧
    PickerInv (setHours (mkTimePicker false true true 7 8 9) 23) := by
  have h1 : PickerInv (mkTimePicker false true true 7 8 9) :=
    degInvariant_amended.1 true true 7 8 9 (by norm_num) (by norm_num) (by norm_num)
  refine ⟨h1, ?_, ?_⟩
  · exact (degInvariant_amended.2.2 _ h1).2.2.2.2.2 .minuteH 90 (by norm_num) (by norm_num)
  · exact (degInvariant_amended.2.2 _ h1).1 23 (by norm_num)

/-- C6: a minute-hand drag step targeting the hour hand assigns the raw
bearing to `lastHourDeg` and snaps the minute hand to `deg % 30 * 12`
(lines 582-583) instead of a proportional update; after the full
`onPtrMove` step the minute hand sits at that snapped position re-quantized
to the 0.1-degree grid of representable (minute, second) pairs. -/
theorem hourDragSnapsMinute (st : ClockState) (deg : ℚ)
    (h0 : 0 ≤ deg) (h1 : deg < 360) (hr : st.isReverseRotate = false) :
    (hourDragUpdate st deg).lastHourDeg = deg ∧
    (hourDragUpdate st deg).lastMinuteDeg = jsRem deg 30 * 12 ∧
    (onPtrMoveDeg st .hourH deg).lastMinuteDeg = (⌊10 * (jsRem deg 30 * 12)⌋ : ℚ) / 10 := by
  refine ⟨rfl, rfl, ?_⟩
  have hmove : onPtrMoveDeg st .hourH deg
      = updateClock (deriveTime (hourDragUpdate st deg)) := by
    simp only [onPtrMoveDeg, dragBranch, hr, Bool.false_eq_true, if_false]
    rw [if_neg (not_lt.2 h0)]
  rw [hmove]
  obtain ⟨hr0, hr1⟩ := jsRem_bounds deg 30 h0 (by norm_num)
  have hrdef : jsRem deg 30 = deg - 30 * ⌊deg / 30⌋ := jsRem_of_nonneg deg 30 h0 (by norm_num)
  have e6 : 6 * (hourDragUpdate st deg).lastMinuteDeg / 36 = 2 * jsRem deg 30 := by
    show 6 * (jsRem deg 30 * 12) / 36 = 2 * jsRem deg 30
    ring
  have e30 : 6 * (hourDragUpdate st deg).lastHourDeg / 180 = deg / 30 := by
    show 6 * deg / 180 = deg / 30
    ring
  have t6 : jsTrunc (2 * jsRem deg 30) = ⌊2 * jsRem deg 30⌋ :=
    jsTrunc_of_nonneg _ (by linarith)
  have t30 : jsTrunc (deg / 30) = ⌊deg / 30⌋ :=
    jsTrunc_of_nonneg _ (by positivity)
  have hmin : (deriveTime (hourDragUpdate st deg)).minute = ⌊2 * jsRem deg 30⌋ := by
    simp only [deriveTime, e30, t30]
    have e : (deg / 30 - (⌊deg / 30⌋ : ℚ)) * 60 = 2 * jsRem deg 30 := by
      rw [hrdef]; ring
    rw [e]
  have hsec : (deriveTime (hourDragUpdate st deg)).second
      = ⌊10 * (jsRem deg 30 * 12)⌋ - 60 * ⌊2 * jsRem deg 30⌋ := by
    simp only [deriveTime, e6, t6]
    have e : (2 * jsRem deg 30 - (⌊2 * jsRem deg 30⌋ : ℚ)) * 60
        = 10 * (jsRem deg 30 * 12) - ((60 * ⌊2 * jsRem deg 30⌋ : ℤ) : ℚ) := by
      push_cast; ring
    rw [e, Int.floor_sub_int]
  simp only [updateClock, hmin, hsec]
  push_cast
  ring

/-- Witness for C6 at bearing 45 on a concrete editable picker. -/
theorem hourDragSnapsMinute_witness :
    (hourDragUpdate (mkTimePicker false true false 3 0 0) 45).lastHourDeg = 45 ∧
    (hourDragUpdate (mkTimePicker false true false 3 0 0) 45).lastMinuteDeg
      = jsRem 45 30 * 12 ∧
    (onPtrMoveDeg (mkTimePicker false true false 3 0 0) .hourH 45).lastMinuteDeg
      = (⌊10 * (jsRem 45 30 * 12)⌋ : ℚ) / 10 :=
  hourDragSnapsMinute (mkTimePicker false true false 3 0 0) 45 (by norm_num) (by norm_num) rfl

lemma jsIntRem_mod12 (h : ℤ) (pm : Bool) (h0 : 0 ≤ h) (h1 : h < 12) :
    jsIntRem (h + (if pm then 12 else 0)) 12 = h := by
  rw [jsIntRem_of_nonneg _ _ (by split_ifs <;> omega)]
  split_ifs <;> omega

/-- `canon` really is the `updateClock` normal form of the displayed
time. -/
lemma canon_eq_updateClock (ic i24 ss : Bool) (h m s : ℤ) (pm : Bool)
    (h0 : 0 ≤ h) (h1 : h < 12) :
    canon ic i24 ss h m s pm =
      updateClock
        { isClock := ic, is24H := i24, showSecods := ss,
          hour := h + (if pm then 12 else 0), minute := m, second := s, isPM := pm,
          isReverseRotate := false,
          lastHourDeg := 0, lastMinuteDeg := 0, lastSecondDeg := 0 } := by
  unfold canon updateClock
  simp only [ClockState.mk.injEq, jsIntRem_mod12 h pm h0 h1, eq_self_iff_true, true_and,
    and_true]
  refine ⟨by push_cast; ring, by push_cast; ring, by push_cast; ring⟩

lemma jsSign_of_neg (x : ℚ) (h : x < 0) : jsSign x = -1 := by
  rw [jsSign, if_neg (by linarith), if_pos h]

lemma jsSign_of_pos (x : ℚ) (h : 0 < x) : jsSign x = 1 := by
  rw [jsSign, if_neg (by linarith), if_neg (by linarith)]

lemma minuteStep_eq (st : ClockState) (deg : ℚ) (hr : st.isReverseRotate = false)
    (hd0 : 0 ≤ deg) :
    minuteStep st deg = updateClock (deriveTime (minuteDragUpdate st deg)) := by
  simp only [minuteStep, onPtrMoveDeg, dragBranch, hr, Bool.false_eq_true, if_false]
  rw [if_neg (not_lt.2 hd0)]

lemma jsIntRem_ite12 (h2 : ℤ) (pm2 : Bool) (h0 : 0 ≤ h2) (h1 : h2 < 12) :
    jsIntRem (if pm2 then h2 + 12 else h2) 12 = h2 := by
  cases pm2 with
  | false =>
      simp only [Bool.false_eq_true, if_false]
      exact jsIntRem_eq_self h2 12 h0 h1
  | true =>
      simp only [if_true]
      rw [jsIntRem_of_nonneg _ _ (by omega)]
      omega

/-- Degree-to-time derivation plus re-quantization, on the state a
minute-hand branch leaves behind: hour hand at `30*h2 + deg/12`, minute
hand at `deg`. -/
lemma minuteStep_canon_core (ic i24 ss : Bool) (h m s : ℤ) (pm : Bool) (deg : ℚ)
    (h2 : ℤ) (pm2 : Bool)
    (hh2a : 0 ≤ h2) (hh2b : h2 < 12) (hd0 : 0 ≤ deg) (hd1 : deg < 360)
    (hupd : minuteDragUpdate (canon ic i24 ss h m s pm) deg =
      { canon ic i24 ss h m s pm with
        isPM := pm2,
        lastHourDeg := 30 * (h2 : ℚ) + deg / 12,
        lastMinuteDeg := deg }) :
    minuteStep (canon ic i24 ss h m s pm) deg =
      canon ic i24 ss h2 ⌊deg / 6⌋ (⌊10 * deg⌋ - 60 * ⌊deg / 6⌋) pm2 := by
  rw [minuteStep_eq _ _ rfl hd0, hupd]
  have hh2q0 : (0 : ℚ) ≤ (h2 : ℚ) := by exact_mod_cast hh2a
  have t6 : jsTrunc (6 * deg / 36) = ⌊deg / 6⌋ := by
    rw [jsTrunc_of_nonneg _ (by positivity)]
    have e : 6 * deg / 36 = deg / 6 := by ring
    rw [e]
  have t30 : jsTrunc (6 * (30 * (h2 : ℚ) + deg / 12) / 180) = h2 := by
    have e : 6 * (30 * (h2 : ℚ) + deg / 12) / 180 = (h2 : ℚ) + deg / 360 := by ring
    rw [e, jsTrunc_of_nonneg _ (by positivity)]
    exact floor_int_add_of_lt h2 _ (by positivity)
      (by rw [div_lt_one (by norm_num : (0 : ℚ) < 360)]; exact hd1)
  have hs2 : ⌊(6 * deg / 36 - (⌊deg / 6⌋ : ℚ)) * 60⌋ = ⌊10 * deg⌋ - 60 * ⌊deg / 6⌋ := by
    have e : (6 * deg / 36 - (⌊deg / 6⌋ : ℚ)) * 60
        = 10 * deg - ((60 * ⌊deg / 6⌋ : ℤ) : ℚ) := by
      push_cast; ring
    rw [e, Int.floor_sub_int]
  have hm2 : ⌊(6 * (30 * (h2 : ℚ) + deg / 12) / 180 - (h2 : ℚ)) * 60⌋ = ⌊deg / 6⌋ := by
    have e : (6 * (30 * (h2 : ℚ) + deg / 12) / 180 - (h2 : ℚ)) * 60 = deg / 6 := by ring
    rw [e]
  have hj : jsIntRem (if pm2 then h2 + 12 else h2) 12 = h2 :=
    jsIntRem_ite12 h2 pm2 hh2a hh2b
  simp only [canon, deriveTime, updateClock, t6, t30, hs2, hm2, ClockState.mk.injEq,
    eq_self_iff_true, true_and, and_true]
  refine ⟨?_, ?_, ?_, ?_⟩
  · cases pm2 <;> simp
  · rw [hj]; push_cast; ring
  · push_cast; ring
  · push_cast; ring

lemma canon_lmd (ic i24 ss : Bool) (h m s : ℤ) (pm : Bool) :
    (canon ic i24 ss h m s pm).lastMinuteDeg = 6 * (m : ℚ) + (s : ℚ) / 10 := rfl

lemma canon_lhd (ic i24 ss : Bool) (h m s : ℤ) (pm : Bool) :
    (canon ic i24 ss h m s pm).lastHourDeg
      = 30 * (h : ℚ) + (m : ℚ) / 2 + (s : ℚ) / 120 := rfl

lemma canon_pm (ic i24 ss : Bool) (h m s : ℤ) (pm : Bool) :
    (canon ic i24 ss h m s pm).isPM = pm := rfl

/-- The minute-hand branch on a canonical state, forward seam crossing. -/
lemma minuteDrag_canon_wrapF (ic i24 ss : Bool) (h m s : ℤ) (pm : Bool) (deg : ℚ)
    (hh0 : 0 ≤ h) (hh1 : h < 12) (hm0 : 0 ≤ m) (hm1 : m < 60) (hs0 : 0 ≤ s) (hs1 : s < 60)
    (hw : 270 < (canon ic i24 ss h m s pm).lastMinuteDeg ∧
      (canon ic i24 ss h m s pm).lastMinuteDeg < 360 ∧ 0 ≤ deg ∧ deg < 90) :
    minuteDragUpdate (canon ic i24 ss h m s pm) deg =
      { canon ic i24 ss h m s pm with
        isPM := (if h = 11 then !pm else pm),
        lastHourDeg := 30 * (((h + 1) % 12 : ℤ) : ℚ) + deg / 12,
        lastMinuteDeg := deg } := by
  have hhq0 : (0 : ℚ) ≤ (h : ℚ) := by exact_mod_cast hh0
  have hhq1 : (h : ℚ) ≤ 11 := by exact_mod_cast (by omega : h ≤ 11)
  have hLlo : (270 : ℚ) < (canon ic i24 ss h m s pm).lastMinuteDeg := hw.1
  have hLhi : (canon ic i24 ss h m s pm).lastMinuteDeg < 360 := hw.2.1
  have hseam : seamWrap (canon ic i24 ss h m s pm).lastMinuteDeg deg := Or.inl hw
  have hsign : jsSign (deg - (canon ic i24 ss h m s pm).lastMinuteDeg) = -1 :=
    jsSign_of_neg _ (by linarith [hw.2.2.2])
  have hraw : minuteHourRaw (canon ic i24 ss h m s pm) deg
      = 30 * ((h : ℚ) + 1) + deg / 12 := by
    rw [minuteHourRaw, if_pos hseam, hsign, canon_lhd, canon_lmd]
    ring
  have hlhdEq : norm360 (minuteHourRaw (canon ic i24 ss h m s pm) deg)
      = 30 * (((h + 1) % 12 : ℤ) : ℚ) + deg / 12 := by
    rw [hraw]
    by_cases h11 : h = 11
    · subst h11
      have e1 : 30 * ((11 : ℤ) : ℚ) + 30 = 360 := by norm_num
      rw [norm360_sub _ (by push_cast; linarith [hw.2.2.1]) (by push_cast; linarith [hw.2.2.2])]
      norm_num
    · have hle : (h : ℚ) + 1 ≤ 11 := by
        have : h + 1 ≤ 11 := by omega
        exact_mod_cast this
      rw [norm360_eq_self _ (by linarith [hw.2.2.1]) (by linarith [hw.2.2.2])]
      have : (h + 1) % 12 = h + 1 := by omega
      rw [this]
      push_cast
      ring
  have hpmEq : (if seamWrap (canon ic i24 ss h m s pm).lastMinuteDeg deg ∧
        (345 < minuteHourRaw (canon ic i24 ss h m s pm) deg ∨
          minuteHourRaw (canon ic i24 ss h m s pm) deg < 15)
      then !pm else pm) = (if h = 11 then !pm else pm) := by
    by_cases h11 : h = 11
    · subst h11
      rw [if_pos ⟨hseam, Or.inl (by rw [hraw]; push_cast; linarith [hw.2.2.1])⟩, if_pos rfl]
    · have hle : (h : ℚ) + 1 ≤ 11 := by
        have : h + 1 ≤ 11 := by omega
        exact_mod_cast this
      rw [if_neg, if_neg h11]
      intro hcon
      rcases hcon.2 with hc | hc
      · rw [hraw] at hc; linarith [hw.2.2.2]
      · rw [hraw] at hc; linarith [hw.2.2.1]
  show ({ canon ic i24 ss h m s pm with
      isPM := (if seamWrap (canon ic i24 ss h m s pm).lastMinuteDeg deg ∧
          (345 < minuteHourRaw (canon ic i24 ss h m s pm) deg ∨
            minuteHourRaw (canon ic i24 ss h m s pm) deg < 15)
        then !(canon ic i24 ss h m s pm).isPM else (canon ic i24 ss h m s pm).isPM),
      lastHourDeg := norm360 (minuteHourRaw (canon ic i24 ss h m s pm) deg),
      lastMinuteDeg := deg } : ClockState) = _
  rw [canon_pm, hpmEq, hlhdEq]

/-- The minute-hand branch on a canonical state, backward seam crossing. -/
lemma minuteDrag_canon_wrapB (ic i24 ss : Bool) (h m s : ℤ) (pm : Bool) (deg : ℚ)
    (hh0 : 0 ≤ h) (hh1 : h < 12) (hm0 : 0 ≤ m) (hm1 : m < 60) (hs0 : 0 ≤ s) (hs1 : s < 60)
    (hw : 270 < deg ∧ deg < 360 ∧ 0 ≤ (canon ic i24 ss h m s pm).lastMinuteDeg ∧
      (canon ic i24 ss h m s pm).lastMinuteDeg < 90) :
    minuteDragUpdate (canon ic i24 ss h m s pm) deg =
      { canon ic i24 ss h m s pm with
        isPM := (if h = 0 then !pm else pm),
        lastHourDeg := 30 * (((h - 1) % 12 : ℤ) : ℚ) + deg / 12,
        lastMinuteDeg := deg } := by
  have hhq0 : (0 : ℚ) ≤ (h : ℚ) := by exact_mod_cast hh0
  have hhq1 : (h : ℚ) ≤ 11 := by exact_mod_cast (by omega : h ≤ 11)
  have hseam : seamWrap (canon ic i24 ss h m s pm).lastMinuteDeg deg := Or.inr hw
  have hsign : jsSign (deg - (canon ic i24 ss h m s pm).lastMinuteDeg) = 1 :=
    jsSign_of_pos _ (by linarith [hw.1, hw.2.2.2])
  have hraw : minuteHourRaw (canon ic i24 ss h m s pm) deg
      = 30 * ((h : ℚ) - 1) + deg / 12 := by
    rw [minuteHourRaw, if_pos hseam, hsign, canon_lhd, canon_lmd]
    ring
  have hlhdEq : norm360 (minuteHourRaw (canon ic i24 ss h m s pm) deg)
      = 30 * (((h - 1) % 12 : ℤ) : ℚ) + deg / 12 := by
    rw [hraw]
    by_cases h0 : h = 0
    · subst h0
      rw [norm360_add _ (by push_cast; linarith [hw.1]) (by push_cast; linarith [hw.2.1])]
      norm_num
      ring
    · have hge : (1 : ℚ) ≤ (h : ℚ) := by
        have : (1 : ℤ) ≤ h := by omega
        exact_mod_cast this
      rw [norm360_eq_self _ (by linarith [hw.1]) (by linarith [hw.2.1])]
      have : (h - 1) % 12 = h - 1 := by omega
      rw [this]
      push_cast
      ring
  have hpmEq : (if seamWrap (canon ic i24 ss h m s pm).lastMinuteDeg deg ∧
        (345 < minuteHourRaw (canon ic i24 ss h m s pm) deg ∨
          minuteHourRaw (canon ic i24 ss h m s pm) deg < 15)
      then !pm else pm) = (if h = 0 then !pm else pm) := by
    by_cases h0 : h = 0
    · subst h0
      rw [if_pos ⟨hseam, Or.inr (by rw [hraw]; push_cast; linarith [hw.2.1])⟩, if_pos rfl]
    · have hge : (1 : ℚ) ≤ (h : ℚ) := by
        have : (1 : ℤ) ≤ h := by omega
        exact_mod_cast this
      rw [if_neg, if_neg h0]
      intro hcon
      rcases hcon.2 with hc | hc
      · rw [hraw] at hc; linarith [hw.2.1]
      · rw [hraw] at hc; linarith [hw.1]
  show ({ canon ic i24 ss h m s pm with
      isPM := (if seamWrap (canon ic i24 ss h m s pm).lastMinuteDeg deg ∧
          (345 < minuteHourRaw (canon ic i24 ss h m s pm) deg ∨
            minuteHourRaw (canon ic i24 ss h m s pm) deg < 15)
        then !(canon ic i24 ss h m s pm).isPM else (canon ic i24 ss h m s pm).isPM),
      lastHourDeg := norm360 (minuteHourRaw (canon ic i24 ss h m s pm) deg),
      lastMinuteDeg := deg } : ClockState) = _
  rw [canon_pm, hpmEq, hlhdEq]

/-- The minute-hand branch on a canonical state, no seam crossing. -/
lemma minuteDrag_canon_noWrap (ic i24 ss : Bool) (h m s : ℤ) (pm : Bool) (deg : ℚ)
    (hh0 : 0 ≤ h) (hh1 : h < 12) (hm0 : 0 ≤ m) (hm1 : m < 60) (hs0 : 0 ≤ s) (hs1 : s < 60)
    (hd0 : 0 ≤ deg) (hd1 : deg < 360)
    (hnw : ¬ seamWrap (canon ic i24 ss h m s pm).lastMinuteDeg deg) :
    minuteDragUpdate (canon ic i24 ss h m s pm) deg =
      { canon ic i24 ss h m s pm with
        isPM := pm,
        lastHourDeg := 30 * (h : ℚ) + deg / 12,
        lastMinuteDeg := deg } := by
  have hhq0 : (0 : ℚ) ≤ (h : ℚ) := by exact_mod_cast hh0
  have hhq1 : (h : ℚ) ≤ 11 := by exact_mod_cast (by omega : h ≤ 11)
  have hraw : minuteHourRaw (canon ic i24 ss h m s pm) deg
      = 30 * (h : ℚ) + deg / 12 := by
    rw [minuteHourRaw, if_neg hnw, canon_lhd, canon_lmd]
    ring
  have hlhdEq : norm360 (minuteHourRaw (canon ic i24 ss h m s pm) deg)
      = 30 * (h : ℚ) + deg / 12 := by
    rw [hraw]
    exact norm360_eq_self _ (by linarith) (by linarith)
  have hpmEq : (if seamWrap (canon ic i24 ss h m s pm).lastMinuteDeg deg ∧
        (345 < minuteHourRaw (canon ic i24 ss h m s pm) deg ∨
          minuteHourRaw (canon ic i24 ss h m s pm) deg < 15)
      then !pm else pm) = pm := by
    rw [if_neg]
    intro hcon
    exact hnw hcon.1
  show ({ canon ic i24 ss h m s pm with
      isPM := (if seamWrap (canon ic i24 ss h m s pm).lastMinuteDeg deg ∧
          (345 < minuteHourRaw (canon ic i24 ss h m s pm) deg ∨
            minuteHourRaw (canon ic i24 ss h m s pm) deg < 15)
        then !(canon ic i24 ss h m s pm).isPM else (canon ic i24 ss h m s pm).isPM),
      lastHourDeg := norm360 (minuteHourRaw (canon ic i24 ss h m s pm) deg),
      lastMinuteDeg := deg } : ClockState) = _
  rw [canon_pm, hpmEq, hlhdEq]

/-- One minute-hand `onPtrMove` step maps the canonical state for
`(h, m, s, pm)` to the canonical state for the time read off the new
bearing: the minute becomes `⌊deg/6⌋`, the second the remaining tenths of
degree, the mod-12 hour moves with the seam-crossing direction, and `isPM`
toggles exactly on a crossing of the 12 o'clock boundary. -/
lemma minuteStep_canon (ic i24 ss : Bool) (h m s : ℤ) (pm : Bool) (deg : ℚ)
    (hh0 : 0 ≤ h) (hh1 : h < 12) (hm0 : 0 ≤ m) (hm1 : m < 60)
    (hs0 : 0 ≤ s) (hs1 : s < 60) (hd0 : 0 ≤ deg) (hd1 : deg < 360) :
    minuteStep (canon ic i24 ss h m s pm) deg =
      canon ic i24 ss ((h + minuteWrapK (canon ic i24 ss h m s pm) deg) % 12)
        ⌊deg / 6⌋ (⌊10 * deg⌋ - 60 * ⌊deg / 6⌋)
        (if (minuteWrapK (canon ic i24 ss h m s pm) deg = 1 ∧ h = 11) ∨
            (minuteWrapK (canon ic i24 ss h m s pm) deg = -1 ∧ h = 0)
         then !pm else pm) := by
  by_cases hF : 270 < (canon ic i24 ss h m s pm).lastMinuteDeg ∧
      (canon ic i24 ss h m s pm).lastMinuteDeg < 360 ∧ 0 ≤ deg ∧ deg < 90
  · have hk : minuteWrapK (canon ic i24 ss h m s pm) deg = 1 := by
      rw [minuteWrapK, if_pos hF]
    rw [hk]
    have hcond : (((1 : ℤ) = 1 ∧ h = 11) ∨ ((1 : ℤ) = -1 ∧ h = 0)) ↔ h = 11 := by
      constructor
      · rintro (⟨_, hx⟩ | ⟨hx, _⟩)
        · exact hx
        · exact absurd hx (by decide)
      · intro hx
        exact Or.inl ⟨rfl, hx⟩
    rw [if_congr hcond rfl rfl]
    exact minuteStep_canon_core ic i24 ss h m s pm deg ((h + 1) % 12) _
      (Int.emod_nonneg _ (by omega)) (Int.emod_lt_of_pos _ (by omega)) hd0 hd1
      (minuteDrag_canon_wrapF ic i24 ss h m s pm deg hh0 hh1 hm0 hm1 hs0 hs1 hF)
  · by_cases hB : 270 < deg ∧ deg < 360 ∧ 0 ≤ (canon ic i24 ss h m s pm).lastMinuteDeg ∧
        (canon ic i24 ss h m s pm).lastMinuteDeg < 90
    · have hk : minuteWrapK (canon ic i24 ss h m s pm) deg = -1 := by
        rw [minuteWrapK, if_neg hF, if_pos hB]
      rw [hk]
      have hcond : (((-1 : ℤ) = 1 ∧ h = 11) ∨ ((-1 : ℤ) = -1 ∧ h = 0)) ↔ h = 0 := by
        constructor
        · rintro (⟨hx, _⟩ | ⟨_, hx⟩)
          · exact absurd hx (by decide)
          · exact hx
        · intro hx
          exact Or.inr ⟨rfl, hx⟩
      rw [if_congr hcond rfl rfl, show h + (-1 : ℤ) = h - 1 by ring]
      exact minuteStep_canon_core ic i24 ss h m s pm deg ((h - 1) % 12) _
        (Int.emod_nonneg _ (by omega)) (Int.emod_lt_of_pos _ (by omega)) hd0 hd1
        (minuteDrag_canon_wrapB ic i24 ss h m s pm deg hh0 hh1 hm0 hm1 hs0 hs1 hB)
    · have hk : minuteWrapK (canon ic i24 ss h m s pm) deg = 0 := by
        rw [minuteWrapK, if_neg hF, if_neg hB]
      rw [hk]
      have hcond : (((0 : ℤ) = 1 ∧ h = 11) ∨ ((0 : ℤ) = -1 ∧ h = 0)) ↔ False := by
        constructor
        · rintro (⟨hx, _⟩ | ⟨hx, _⟩) <;> exact absurd hx (by decide)
        · intro hx
          exact absurd hx (by decide)
      rw [if_congr hcond rfl rfl, if_neg (by intro hx; exact hx),
        show h + (0 : ℤ) = h by ring, show h % 12 = h by omega]
      have hnw : ¬ seamWrap (canon ic i24 ss h m s pm).lastMinuteDeg deg := by
        intro hc
        rcases hc with hc | hc
        · exact hF hc
        · exact hB hc
      exact minuteStep_canon_core ic i24 ss h m s pm deg h pm hh0 hh1 hd0 hd1
        (minuteDrag_canon_noWrap ic i24 ss h m s pm deg hh0 hh1 hm0 hm1 hs0 hs1
          hd0 hd1 hnw)

lemma quant_bounds (d : ℚ) (hd0 : 0 ≤ d) (hd1 : d < 360) :
    (0 ≤ ⌊d / 6⌋ ∧ ⌊d / 6⌋ < 60) ∧
    (0 ≤ ⌊10 * d⌋ - 60 * ⌊d / 6⌋ ∧ ⌊10 * d⌋ - 60 * ⌊d / 6⌋ < 60) := by
  have h1 : (0 : ℚ) ≤ d / 6 := by positivity
  have h2 : d / 6 < 60 := by
    rw [div_lt_iff₀ (by norm_num : (0 : ℚ) < 6)]
    linarith
  have hf1 : 0 ≤ ⌊d / 6⌋ := Int.floor_nonneg.2 h1
  have hf2 : ⌊d / 6⌋ < 60 := Int.floor_lt.2 (by exact_mod_cast h2)
  have hfl : (⌊d / 6⌋ : ℚ) ≤ d / 6 := Int.floor_le _
  have hfu : d / 6 < (⌊d / 6⌋ : ℚ) + 1 := Int.lt_floor_add_one _
  have hs1 : 60 * ⌊d / 6⌋ ≤ ⌊10 * d⌋ := by
    rw [Int.le_floor]
    push_cast
    linarith
  have hs2 : ⌊10 * d⌋ < 60 * ⌊d / 6⌋ + 60 := by
    rw [Int.floor_lt]
    push_cast
    linarith
  exact ⟨⟨hf1, hf2⟩, by omega, by omega⟩

lemma lhd_sector11 (h m s : ℤ) (hh0 : 0 ≤ h) (hh1 : h < 12)
    (hm0 : 0 ≤ m) (hm1 : m < 60) (hs0 : 0 ≤ s) (hs1 : s < 60) :
    ((330 : ℚ) ≤ 30 * (h : ℚ) + (m : ℚ) / 2 + (s : ℚ) / 120) ↔ h = 11 := by
  have hmq : (m : ℚ) ≤ 59 := by exact_mod_cast (by omega : m ≤ 59)
  have hsq : (s : ℚ) ≤ 59 := by exact_mod_cast (by omega : s ≤ 59)
  have hmq0 : (0 : ℚ) ≤ (m : ℚ) := by exact_mod_cast hm0
  have hsq0 : (0 : ℚ) ≤ (s : ℚ) := by exact_mod_cast hs0
  constructor
  · intro hx
    by_contra hne
    have h10 : (h : ℚ) ≤ 10 := by exact_mod_cast (by omega : h ≤ 10)
    linarith
  · intro hx
    subst hx
    push_cast
    linarith

/-- Bundle of per-step facts used by the drag induction: under a
non-negative advancement the wrap direction is 0 or 1, the step lands on
the canonical state of the read-off time, and the `isPM` toggle happens
exactly on a forward crossing taken with the hour hand in [330°, 360°). -/
lemma minuteStep_canon_facts (ic i24 ss : Bool) (h m s : ℤ) (pm : Bool) (d : ℚ)
    (hh0 : 0 ≤ h) (hh1 : h < 12) (hm0 : 0 ≤ m) (hm1 : m < 60)
    (hs0 : 0 ≤ s) (hs1 : s < 60) (hd0 : 0 ≤ d) (hd1 : d < 360)
    (hadv : 0 ≤ minuteAdv (canon ic i24 ss h m s pm) d) :
    ∃ k h3 m3 s3 : ℤ, ∃ pm3 : Bool,
      k = minuteWrapK (canon ic i24 ss h m s pm) d ∧ (k = 0 ∨ k = 1) ∧
      minuteStep (canon ic i24 ss h m s pm) d = canon ic i24 ss h3 m3 s3 pm3 ∧
      (0 ≤ h3 ∧ h3 < 12 ∧ 0 ≤ m3 ∧ m3 < 60 ∧ 0 ≤ s3 ∧ s3 < 60) ∧
      h3 = (h + k) % 12 ∧
      minuteAdv (canon ic i24 ss h m s pm) d
        = ((6 * (m3 : ℚ) + (s3 : ℚ) / 10) - (6 * (m : ℚ) + (s : ℚ) / 10)) + 360 * (k : ℚ) ∧
      ((if (minuteStep (canon ic i24 ss h m s pm) d).isPM
            = (canon ic i24 ss h m s pm).isPM then 0 else 1) : ℕ)
        = (if minuteWrapK (canon ic i24 ss h m s pm) d = 1 ∧
              330 ≤ (canon ic i24 ss h m s pm).lastHourDeg then 1 else 0) ∧
      ((if minuteWrapK (canon ic i24 ss h m s pm) d = 1 ∧
            330 ≤ (canon ic i24 ss h m s pm).lastHourDeg then 1 else 0) : ℕ)
        ≤ (if minuteWrapK (canon ic i24 ss h m s pm) d = 1 then 1 else 0) := by
  have hstep := minuteStep_canon ic i24 ss h m s pm d hh0 hh1 hm0 hm1 hs0 hs1 hd0 hd1
  obtain ⟨⟨hq1, hq2⟩, hq3, hq4⟩ := quant_bounds d hd0 hd1
  have hmq : (m : ℚ) ≤ 59 := by exact_mod_cast (by omega : m ≤ 59)
  have hsq : (s : ℚ) ≤ 59 := by exact_mod_cast (by omega : s ≤ 59)
  have hmq0 : (0 : ℚ) ≤ (m : ℚ) := by exact_mod_cast hm0
  have hsq0 : (0 : ℚ) ≤ (s : ℚ) := by exact_mod_cast hs0
  have hm3q : ((⌊d / 6⌋ : ℤ) : ℚ) ≤ 59 := by exact_mod_cast (by omega : ⌊d / 6⌋ ≤ 59)
  have hs3q : ((⌊10 * d⌋ - 60 * ⌊d / 6⌋ : ℤ) : ℚ) ≤ 59 := by
    exact_mod_cast (by omega : ⌊10 * d⌋ - 60 * ⌊d / 6⌋ ≤ 59)
  have hm3q0 : (0 : ℚ) ≤ ((⌊d / 6⌋ : ℤ) : ℚ) := by exact_mod_cast hq1
  have hs3q0 : (0 : ℚ) ≤ ((⌊10 * d⌋ - 60 * ⌊d / 6⌋ : ℤ) : ℚ) := by exact_mod_cast hq3
  have hadv_eq : minuteAdv (canon ic i24 ss h m s pm) d
      = ((6 * ((⌊d / 6⌋ : ℤ) : ℚ) + ((⌊10 * d⌋ - 60 * ⌊d / 6⌋ : ℤ) : ℚ) / 10)
          - (6 * (m : ℚ) + (s : ℚ) / 10))
        + 360 * (minuteWrapK (canon ic i24 ss h m s pm) d : ℚ) := by
    rw [minuteAdv, hstep, canon_lmd, canon_lmd]
  have hub : 6 * ((⌊d / 6⌋ : ℤ) : ℚ) + ((⌊10 * d⌋ - 60 * ⌊d / 6⌋ : ℤ) : ℚ) / 10 < 360 := by
    linarith
  have hlb : (0 : ℚ) ≤ 6 * (m : ℚ) + (s : ℚ) / 10 := by linarith
  have hkne : minuteWrapK (canon ic i24 ss h m s pm) d ≠ -1 := by
    intro hkm
    rw [hadv_eq, hkm] at hadv
    have hcast : ((-1 : ℤ) : ℚ) = -1 := by norm_num
    rw [hcast] at hadv
    linarith
  have hk01 : minuteWrapK (canon ic i24 ss h m s pm) d = 0 ∨
      minuteWrapK (canon ic i24 ss h m s pm) d = 1 := by
    have htri : minuteWrapK (canon ic i24 ss h m s pm) d = 1 ∨
        minuteWrapK (canon ic i24 ss h m s pm) d = -1 ∨
        minuteWrapK (canon ic i24 ss h m s pm) d = 0 := by
      rw [minuteWrapK]
      split_ifs <;> simp
    rcases htri with ha | ha | ha
    · exact Or.inr ha
    · exact absurd ha hkne
    · exact Or.inl ha
  have hsect := lhd_sector11 h m s hh0 hh1 hm0 hm1 hs0 hs1
  have hsect2 : (330 : ℚ) ≤ (canon ic i24 ss h m s pm).lastHourDeg ↔ h = 11 := by
    rw [canon_lhd]
    exact hsect
  have htog : ((if (minuteStep (canon ic i24 ss h m s pm) d).isPM
        = (canon ic i24 ss h m s pm).isPM then 0 else 1) : ℕ)
      = (if minuteWrapK (canon ic i24 ss h m s pm) d = 1 ∧
            330 ≤ (canon ic i24 ss h m s pm).lastHourDeg then 1 else 0) := by
    rw [hstep, canon_pm, canon_pm]
    by_cases hcase : minuteWrapK (canon ic i24 ss h m s pm) d = 1 ∧ h = 11
    · have hR : minuteWrapK (canon ic i24 ss h m s pm) d = 1 ∧
          (330 : ℚ) ≤ (canon ic i24 ss h m s pm).lastHourDeg :=
        ⟨hcase.1, hsect2.2 hcase.2⟩
      rw [if_pos (Or.inl hcase), if_pos hR]
      cases pm <;> decide
    · have hc2 : ¬ ((minuteWrapK (canon ic i24 ss h m s pm) d = 1 ∧ h = 11) ∨
          (minuteWrapK (canon ic i24 ss h m s pm) d = -1 ∧ h = 0)) := by
        rintro (hc | hc)
        · exact hcase hc
        · exact hkne hc.1
      have hR : ¬ (minuteWrapK (canon ic i24 ss h m s pm) d = 1 ∧
          (330 : ℚ) ≤ (canon ic i24 ss h m s pm).lastHourDeg) :=
        fun hcon => hcase ⟨hcon.1, hsect2.1 hcon.2⟩
      rw [if_neg hc2, if_pos rfl, if_neg hR]
  have hle : ((if minuteWrapK (canon ic i24 ss h m s pm) d = 1 ∧
        330 ≤ (canon ic i24 ss h m s pm).lastHourDeg then 1 else 0) : ℕ)
      ≤ (if minuteWrapK (canon ic i24 ss h m s pm) d = 1 then 1 else 0) := by
    by_cases a : minuteWrapK (canon ic i24 ss h m s pm) d = 1 ∧
        330 ≤ (canon ic i24 ss h m s pm).lastHourDeg
    · rw [if_pos a, if_pos a.1]
    · rw [if_neg a]
      split_ifs <;> omega
  exact ⟨minuteWrapK (canon ic i24 ss h m s pm) d,
    (h + minuteWrapK (canon ic i24 ss h m s pm) d) % 12,
    ⌊d / 6⌋, ⌊10 * d⌋ - 60 * ⌊d / 6⌋,
    (if (minuteWrapK (canon ic i24 ss h m s pm) d = 1 ∧ h = 11) ∨
        (minuteWrapK (canon ic i24 ss h m s pm) d = -1 ∧ h = 0) then !pm else pm),
    rfl, hk01, hstep,
    ⟨Int.emod_nonneg _ (by omega), Int.emod_lt_of_pos _ (by omega), hq1, hq2, hq3, hq4⟩,
    rfl, hadv_eq, htog, hle⟩

/-- Drag induction: a forward drag (all per-step advancements non-negative)
from a canonical state lands on a canonical state; the total advancement is
the minute-hand displacement plus one turn per forward wrap; the mod-12
hour moves by the number of forward wraps; and `isPM` toggles exactly at
the noon crossings, which are among the forward wraps. -/
lemma minuteRun_master (ic i24 ss : Bool) :
    ∀ (degs : List ℚ) (h m s : ℤ) (pm : Bool),
      0 ≤ h → h < 12 → 0 ≤ m → m < 60 → 0 ≤ s → s < 60 →
      (∀ d ∈ degs, 0 ≤ d ∧ d < 360) →
      (∀ a ∈ minuteAdvs (canon ic i24 ss h m s pm) degs, 0 ≤ a) →
      ∃ h2 m2 s2 : ℤ, ∃ pm2 : Bool,
        (0 ≤ h2 ∧ h2 < 12 ∧ 0 ≤ m2 ∧ m2 < 60 ∧ 0 ≤ s2 ∧ s2 < 60) ∧
        minuteRun (canon ic i24 ss h m s pm) degs = canon ic i24 ss h2 m2 s2 pm2 ∧
        (minuteAdvs (canon ic i24 ss h m s pm) degs).sum
          = ((6 * (m2 : ℚ) + (s2 : ℚ) / 10) - (6 * (m : ℚ) + (s : ℚ) / 10))
            + 360 * (forwardWraps (canon ic i24 ss h m s pm) degs : ℚ) ∧
        h2 = (h + (forwardWraps (canon ic i24 ss h m s pm) degs : ℤ)) % 12 ∧
        pmToggles (canon ic i24 ss h m s pm) degs
          = noonCrossings (canon ic i24 ss h m s pm) degs ∧
        noonCrossings (canon ic i24 ss h m s pm) degs
          ≤ forwardWraps (canon ic i24 ss h m s pm) degs := by
  intro degs
  induction degs with
  | nil =>
      intro h m s pm hh0 hh1 hm0 hm1 hs0 hs1 hdegs hadvs
      refine ⟨h, m, s, pm, ⟨hh0, hh1, hm0, hm1, hs0, hs1⟩, rfl, ?_, ?_, ?_, ?_⟩
      · simp [minuteAdvs, forwardWraps]
      · simp [forwardWraps]
        omega
      · simp [pmToggles, noonCrossings]
      · simp [noonCrossings, forwardWraps]
  | cons d ds ih =>
      intro h m s pm hh0 hh1 hm0 hm1 hs0 hs1 hdegs hadvs
      obtain ⟨hd0, hd1⟩ := hdegs d (by simp)
      have hadv0 : 0 ≤ minuteAdv (canon ic i24 ss h m s pm) d := by
        apply hadvs
        simp [minuteAdvs]
      obtain ⟨k, h3, m3, s3, pm3, hkdef, hk01, hstep, hb3, hh3, hadv_eq, htog, hle⟩ :=
        minuteStep_canon_facts ic i24 ss h m s pm d hh0 hh1 hm0 hm1 hs0 hs1 hd0 hd1 hadv0
      have hrunEq : minuteRun (canon ic i24 ss h m s pm) (d :: ds)
          = minuteRun (canon ic i24 ss h3 m3 s3 pm3) ds := by
        simp only [minuteRun]
        rw [hstep]
      have hadvsEq : minuteAdvs (canon ic i24 ss h m s pm) (d :: ds)
          = minuteAdv (canon ic i24 ss h m s pm) d
              :: minuteAdvs (canon ic i24 ss h3 m3 s3 pm3) ds := by
        simp only [minuteAdvs]
        rw [hstep]
      have hfwEq : forwardWraps (canon ic i24 ss h m s pm) (d :: ds)
          = (if minuteWrapK (canon ic i24 ss h m s pm) d = 1 then 1 else 0)
              + forwardWraps (canon ic i24 ss h3 m3 s3 pm3) ds := by
        simp only [forwardWraps]
        rw [hstep]
      have hnoonEq : noonCrossings (canon ic i24 ss h m s pm) (d :: ds)
          = (if minuteWrapK (canon ic i24 ss h m s pm) d = 1 ∧
                330 ≤ (canon ic i24 ss h m s pm).lastHourDeg then 1 else 0)
              + noonCrossings (canon ic i24 ss h3 m3 s3 pm3) ds := by
        simp only [noonCrossings]
        rw [hstep]
      have htogEq : pmToggles (canon ic i24 ss h m s pm) (d :: ds)
          = (if (canon ic i24 ss h3 m3 s3 pm3).isPM
                = (canon ic i24 ss h m s pm).isPM then 0 else 1)
              + pmToggles (canon ic i24 ss h3 m3 s3 pm3) ds := by
        simp only [pmToggles]
        rw [hstep]
      have htog2 := htog
      rw [hstep] at htog2
      have hdegs2 : ∀ x ∈ ds, 0 ≤ x ∧ x < 360 :=
        fun x hx => hdegs x (List.mem_cons_of_mem _ hx)
      have hadvs2 : ∀ a ∈ minuteAdvs (canon ic i24 ss h3 m3 s3 pm3) ds, 0 ≤ a := by
        intro a ha
        apply hadvs
        rw [hadvsEq]
        exact List.mem_cons_of_mem _ ha
      obtain ⟨h2, m2, s2, pm2, hb2, hrun2, hsum2, hh2, htogT, hleT⟩ :=
        ih h3 m3 s3 pm3 hb3.1 hb3.2.1 hb3.2.2.1 hb3.2.2.2.1 hb3.2.2.2.2.1 hb3.2.2.2.2.2
          hdegs2 hadvs2
      refine ⟨h2, m2, s2, pm2, hb2, ?_, ?_, ?_, ?_, ?_⟩
      · rw [hrunEq]
        exact hrun2
      · rw [hadvsEq, List.sum_cons, hsum2, hadv_eq, hfwEq, ← hkdef]
        rcases hk01 with hk | hk
        · rw [hk, if_neg (by decide)]
          push_cast
          ring
        · rw [hk, if_pos rfl]
          push_cast
          ring
      · rw [hfwEq, ← hkdef]
        rcases hk01 with hk | hk
        · rw [hk] at hh3
          rw [hk, if_neg (by decide), hh2, hh3]
          push_cast
          omega
        · rw [hk] at hh3
          rw [hk, if_pos rfl, hh2, hh3]
          push_cast
          omega
      · rw [htogEq, hnoonEq, htog2, htogT]
      · rw [hnoonEq, hfwEq]
        exact Nat.add_le_add hle hleT

/-- C2: any forward minute-hand drag whose angle advances by a total of
exactly 360° moves the hour hand forward by exactly 30° (mod 360), advances
the hour by exactly 1 (mod 12), and toggles `isPM` exactly as many times as
the hour hand crosses the 12 o'clock boundary — which happens at most
once. -/
theorem minuteFullRotation (ic i24 ss : Bool) (h m s : ℤ) (pm : Bool) (degs : List ℚ)
    (hh0 : 0 ≤ h) (hh1 : h < 12) (hm0 : 0 ≤ m) (hm1 : m < 60)
    (hs0 : 0 ≤ s) (hs1 : s < 60)
    (hdegs : ∀ d ∈ degs, 0 ≤ d ∧ d < 360)
    (hadvs : ∀ a ∈ minuteAdvs (canon ic i24 ss h m s pm) degs, 0 ≤ a)
    (hsum : (minuteAdvs (canon ic i24 ss h m s pm) degs).sum = 360) :
    (minuteRun (canon ic i24 ss h m s pm) degs).lastHourDeg
      = jsRem ((canon ic i24 ss h m s pm).lastHourDeg + 30) 360 ∧
    (minuteRun (canon ic i24 ss h m s pm) degs).hour % 12
      = ((canon ic i24 ss h m s pm).hour + 1) % 12 ∧
    pmToggles (canon ic i24 ss h m s pm) degs
      = noonCrossings (canon ic i24 ss h m s pm) degs ∧
    noonCrossings (canon ic i24 ss h m s pm) degs ≤ 1 := by
  obtain ⟨h2, m2, s2, pm2, ⟨hb1, hb2, hb3, hb4, hb5, hb6⟩, hrun, hsum2, hh2, htog, hle⟩ :=
    minuteRun_master ic i24 ss degs h m s pm hh0 hh1 hm0 hm1 hs0 hs1 hdegs hadvs
  have hmq : (m : ℚ) ≤ 59 := by exact_mod_cast (by omega : m ≤ 59)
  have hsq : (s : ℚ) ≤ 59 := by exact_mod_cast (by omega : s ≤ 59)
  have hmq0 : (0 : ℚ) ≤ (m : ℚ) := by exact_mod_cast hm0
  have hsq0 : (0 : ℚ) ≤ (s : ℚ) := by exact_mod_cast hs0
  have hm2q : (m2 : ℚ) ≤ 59 := by exact_mod_cast (by omega : m2 ≤ 59)
  have hs2q : (s2 : ℚ) ≤ 59 := by exact_mod_cast (by omega : s2 ≤ 59)
  have hm2q0 : (0 : ℚ) ≤ (m2 : ℚ) := by exact_mod_cast hb3
  have hs2q0 : (0 : ℚ) ≤ (s2 : ℚ) := by exact_mod_cast hb5
  have hF1 : forwardWraps (canon ic i24 ss h m s pm) degs = 1 := by
    rw [hsum] at hsum2
    have hq1 : (0 : ℚ) < 360 * (forwardWraps (canon ic i24 ss h m s pm) degs : ℚ) := by
      linarith
    have hq2 : 360 * ((forwardWraps (canon ic i24 ss h m s pm) degs : ℕ) : ℚ) < 720 := by
      linarith
    have hlow : 0 < forwardWraps (canon ic i24 ss h m s pm) degs := by
      by_contra hcon
      have : forwardWraps (canon ic i24 ss h m s pm) degs = 0 := by omega
      rw [this] at hq1
      norm_num at hq1
    have hhigh : forwardWraps (canon ic i24 ss h m s pm) degs < 2 := by
      by_contra hcon
      have h2le : (2 : ℚ) ≤ ((forwardWraps (canon ic i24 ss h m s pm) degs : ℕ) : ℚ) := by
        exact_mod_cast (by omega : 2 ≤ forwardWraps (canon ic i24 ss h m s pm) degs)
      linarith
    omega
  have hms : m2 = m ∧ s2 = s := by
    rw [hsum, hF1] at hsum2
    have hq : 6 * (m2 : ℚ) + (s2 : ℚ) / 10 = 6 * (m : ℚ) + (s : ℚ) / 10 := by
      push_cast at hsum2
      linarith
    have hint : (60 * m2 + s2 : ℤ) = 60 * m + s := by
      have h10 : ((60 * m2 + s2 : ℤ) : ℚ) = ((60 * m + s : ℤ) : ℚ) := by
        push_cast
        linarith
      exact_mod_cast h10
    omega
  obtain ⟨hm2m, hs2s⟩ := hms
  rw [hm2m, hs2s] at hrun
  rw [hF1] at hh2
  have hh2e : h2 = (h + 1) % 12 := by
    rw [hh2]
    norm_num
  refine ⟨?_, ?_, htog, ?_⟩
  · rw [hrun, canon_lhd, canon_lhd]
    by_cases h11 : h = 11
    · subst h11
      have hh2z : h2 = 0 := by omega
      subst hh2z
      rw [jsRem_shift _ 360 (by norm_num) (by push_cast; linarith) (by push_cast; linarith)]
      push_cast
      ring
    · have hh2v : h2 = h + 1 := by omega
      subst hh2v
      have hhq : (h : ℚ) ≤ 10 := by exact_mod_cast (by omega : h ≤ 10)
      have hhq0 : (0 : ℚ) ≤ (h : ℚ) := by exact_mod_cast hh0
      rw [jsRem_eq_self _ 360 (by push_cast; linarith) (by push_cast; linarith)]
      push_cast
      ring
  · rw [hrun]
    show ((canon ic i24 ss h2 m s pm2).hour) % 12 = _
    have e1 : (canon ic i24 ss h2 m s pm2).hour = h2 + (if pm2 then 12 else 0) := rfl
    have e2 : (canon ic i24 ss h m s pm).hour = h + (if pm then 12 else 0) := rfl
    rw [e1, e2]
    split_ifs <;> omega
  · rw [hF1] at hle
    exact hle

/-- Witness for C2: a five-step forward drag of the minute hand through a
full turn, starting at 23:59 — the hour hand crosses noon once, `isPM`
toggles once, and the hour hand ends 30° further. -/
theorem minuteFullRotation_witness :
    (minuteRun (canon false true false 11 59 0 true)
        [0, 90, 180, 270, 354]).lastHourDeg
      = jsRem ((canon false true false 11 59 0 true).lastHourDeg + 30) 360 ∧
    (minuteRun (canon false true false 11 59 0 true) [0, 90, 180, 270, 354]).hour % 12
      = ((canon false true false 11 59 0 true).hour + 1) % 12 ∧
    pmToggles (canon false true false 11 59 0 true) [0, 90, 180, 270, 354]
      = noonCrossings (canon false true false 11 59 0 true) [0, 90, 180, 270, 354] ∧
    noonCrossings (canon false true false 11 59 0 true) [0, 90, 180, 270, 354] ≤ 1 :=
  minuteFullRotation false true false 11 59 0 true [0, 90, 180, 270, 354]
    (by norm_num) (by norm_num) (by norm_num) (by norm_num) (by norm_num) (by norm_num)
    (by
      intro d hd
      fin_cases hd <;> norm_num)
    (by
      intro a ha
      have hlist : minuteAdvs (canon false true false 11 59 0 true) [0, 90, 180, 270, 354]
          = [6, 90, 90, 90, 84] := by
        norm_num [minuteAdvs, minuteAdv, minuteWrapK, minuteStep, onPtrMoveDeg, dragBranch,
          updateClock, deriveTime, minuteDragUpdate, minuteHourRaw, norm360, seamWrap,
          jsSign, jsTrunc, jsRem, jsIntRem, canon]
      rw [hlist] at ha
      fin_cases ha <;> norm_num)
    (by
      have hlist : minuteAdvs (canon false true false 11 59 0 true) [0, 90, 180, 270, 354]
          = [6, 90, 90, 90, 84] := by
        norm_num [minuteAdvs, minuteAdv, minuteWrapK, minuteStep, onPtrMoveDeg, dragBranch,
          updateClock, deriveTime, minuteDragUpdate, minuteHourRaw, norm360, seamWrap,
          jsSign, jsTrunc, jsRem, jsIntRem, canon]
      rw [hlist]
      norm_num)

end Cyb3rBlockly
